import Mathlib

/-!
# ezEngine resource manager: a shallow embedding

Definitions in this file follow
`Code/Engine/Core/ResourceManager/ResourceManager.h`,
`Code/Engine/Core/ResourceManager/Resource.h`,
`Code/Engine/GameUtils/PathFinding/Implementation/GraphSearch_inl.h`,
`Code/Engine/Utilities/DataStructures/GameGrid.h`,
`Code/Engine/ParticlePlugin/Type/Sprite/ParticleTypeSprite.cpp` and
`Code/Engine/Foundation/System/Implementation/CrashHandler.cpp`. Functions that
these files only declare or use are modelled and marked as such.

Conventions:
* a raw pointer (`ezResource*`) is its address, a `Nat`; the null pointer is `0`;
* `ezTime` is declared outside the files at hand, so the due date is a
  parameter type `T` carrying a linear order;
* code that can trip `EZ_ASSERT_DEV` or `EZ_ASSERT` is embedded in the development
  configuration, where the assertion is active and aborts the call;
* `float` costs of the path search are values of a parameter type `C` carrying a
  linear order;
* 32-bit integer arithmetic wraps around modulo `2 ^ 32`;
* a loop that need not terminate takes a fuel argument and reports when it runs
  out.
-/

namespace ezResourceManager

/-! ## The preload queue entry (`ezResourceManager::LoadingInfo`) -/

/-- An entry of the preload queue `m_RequireLoading`: a due date and the resource
to load (`struct LoadingInfo`). -/
structure LoadingInfo (T : Type) where
  m_DueDate : T
  m_pResource : Nat
  deriving DecidableEq, Repr

namespace LoadingInfo

variable {T : Type}

/-- The member `operator==`: `return m_pResource == rhs.m_pResource;`. -/
def eq (a rhs : LoadingInfo T) : Bool :=
  a.m_pResource == rhs.m_pResource

/-- The member `operator<`: two early returns on the due date, then the
comparison of the resource pointers. -/
def lt [LinearOrder T] (a rhs : LoadingInfo T) : Bool :=
  if a.m_DueDate < rhs.m_DueDate then true
  else if a.m_DueDate > rhs.m_DueDate then false
  else decide (a.m_pResource < rhs.m_pResource)

/-- A linear search of the queue with `operator==`, as `ezDeque::IndexOf` does it:
the index of the first entry equal to `probe`, or `none` (`ezInvalidIndex`). -/
def IndexOf (queue : List (LoadingInfo T)) (probe : LoadingInfo T) : Option Nat :=
  match queue with
  | [] => none
  | e :: rest =>
    if eq e probe then some 0
    else (IndexOf rest probe).map (fun i => i + 1)

end LoadingInfo

end ezResourceManager

/-! ## Resource creation (`EZ_RESOURCE_IMPLEMENT_CREATEABLE` in `Resource.h`) -/

/-- Modelled from the spec: the enumeration `ezResourceState` is declared in
`Implementation/Declarations.h`, which is not among the files at hand. `Invalid` is
the enumerator `CallCreateResource` tests for; the other states are the ones the
specification lists for a resource instance. -/
inductive ezResourceState where
  | Invalid
  | Unloaded
  | LoadScheduled
  | LoadingOnDisk
  | LoadingOnMain
  | Loaded
  | Missing
  deriving DecidableEq, Repr

/-- The value a create step returns (`ezResourceLoadDesc`): the three fields
`CallCreateResource` reads. The quality levels are `ezUInt8` values. -/
structure ezResourceLoadDesc where
  m_State : ezResourceState
  m_uiQualityLevelsDiscardable : Nat
  m_uiQualityLevelsLoadable : Nat
  deriving DecidableEq, Repr

/-- Modelled from the spec: `ezTypedResourceHandle` is declared in
`ResourceHandle.h`, which is not among the files at hand. A handle is an opaque
reference to a resource instance with a validity check; it is embedded as the
address of the instance it references, and a handle that references nothing (the
default-constructed handle) holds the null address and is invalid. -/
structure ezTypedResourceHandle where
  m_pResource : Nat
  deriving DecidableEq, Repr

/-- Modelled from the spec: the validity check of a handle
(`ezTypedResourceHandle::IsValid`, declared in `ResourceHandle.h`). -/
def ezTypedResourceHandle.IsValid (h : ezTypedResourceHandle) : Bool :=
  h.m_pResource != 0

/-- Modelled from the spec: `ezBitflags::AddOrRemove(flag, state)` is declared in
`Foundation/Types/Bitflags.h`, which is not among the files at hand. On a storage
type of `w` bits it adds the bits of `flag` when `state` holds and removes them
otherwise: `state ? value | flag : value & ~flag`. -/
def ezBitflags.AddOrRemove (w : Nat) (value flag : Nat) (state : Bool) : Nat :=
  if state then value ||| flag
  else value &&& ((2 ^ w - 1) ^^^ flag)

/-- Whether the bits of `flag` are all set (`ezBitflags::IsSet`). -/
def ezBitflags.IsSet (value flag : Nat) : Bool :=
  (value &&& flag) == flag

/-- The two fields of `ezResource::MemoryUsage` that `CallCreateResource` touches. -/
structure MemoryUsage where
  m_uiMemoryCPU : Nat
  m_uiMemoryGPU : Nat
  deriving DecidableEq, Repr

/-- The members of a resource object that `CallCreateResource` and
`SetFallbackResource` read or write; `m_pThis` is the address of the object
(`this`), `m_Flags` the value of the `ezBitflags<ezResourceFlags>` member and
`m_hFallback` the handle declared by `EZ_RESOURCE_DECLARE_COMMON_CODE`. -/
structure ezResource where
  m_pThis : Nat
  m_LoadingState : ezResourceState
  m_uiQualityLevelsDiscardable : Nat
  m_uiQualityLevelsLoadable : Nat
  m_MemoryUsage : MemoryUsage
  m_uiResourceChangeCounter : Nat
  m_Flags : Nat
  m_hFallback : ezTypedResourceHandle
  deriving DecidableEq, Repr

/-- The event types named in the files at hand (`ezResourceEventType`). -/
inductive ezResourceEventType where
  | ResourceExists
  | ResourceContentUpdated
  deriving DecidableEq, Repr

/-- The event handed to `ezResourceManager::BroadcastResourceEvent`. -/
structure ezResourceEvent where
  m_pResource : Nat
  m_EventType : ezResourceEventType
  deriving DecidableEq, Repr

/-- The five `EZ_ASSERT_DEV` checks of `CallCreateResource`, in source order. -/
inductive AssertFailure where
  | InvalidLoadState
  | QualityLevelsDiscardableNotFilled
  | QualityLevelsLoadableNotFilled
  | MemoryCPUNotUpdated
  | MemoryGPUNotUpdated
  deriving DecidableEq, Repr

/-- What one call of `CallCreateResource` leaves behind: the resource object as it
stands when the call returns or aborts, every broadcast made together with the
object state a subscriber sees at that moment, and the assertion that aborted the
call, if one did. -/
structure CreateRun where
  m_Resource : ezResource
  m_Broadcasts : List (ezResourceEvent × ezResource)
  m_Failed : Option AssertFailure
  deriving DecidableEq, Repr

namespace ezResource

/-- Modelled from the spec: `IncResourceChangeCounter` is declared in
`ResourceBase.h`, which is not among the files at hand; the change counter
"increments on every successful content replacement", so it adds one. -/
def IncResourceChangeCounter (self : ezResource) : ezResource :=
  { self with m_uiResourceChangeCounter := self.m_uiResourceChangeCounter + 1 }

/-- The body of `SELF::CallCreateResource` in a development build. The create step
`CreateResource` and the memory query `UpdateMemoryUsage` are supplied by the
resource type; `UpdateMemoryUsage` receives the structure by reference and returns
it as it left it. -/
def CallCreateResource {D : Type} (self : ezResource)
    (CreateResource : D → ezResourceLoadDesc)
    (UpdateMemoryUsage : MemoryUsage → MemoryUsage) (descriptor : D) : CreateRun :=
  let ld := CreateResource descriptor
  if ld.m_State = ezResourceState.Invalid then
    ⟨self, [], some AssertFailure.InvalidLoadState⟩
  else if ld.m_uiQualityLevelsDiscardable = 0xFF then
    ⟨self, [], some AssertFailure.QualityLevelsDiscardableNotFilled⟩
  else if ld.m_uiQualityLevelsLoadable = 0xFF then
    ⟨self, [], some AssertFailure.QualityLevelsLoadableNotFilled⟩
  else
    let r1 := self.IncResourceChangeCounter
    let r2 : ezResource :=
      { r1 with
        m_LoadingState := ld.m_State
        m_uiQualityLevelsDiscardable := ld.m_uiQualityLevelsDiscardable
        m_uiQualityLevelsLoadable := ld.m_uiQualityLevelsLoadable }
    let MemUsage := UpdateMemoryUsage ⟨0xFFFFFFFF, 0xFFFFFFFF⟩
    if MemUsage.m_uiMemoryCPU = 0xFFFFFFFF then
      ⟨r2, [], some AssertFailure.MemoryCPUNotUpdated⟩
    else if MemUsage.m_uiMemoryGPU = 0xFFFFFFFF then
      ⟨r2, [], some AssertFailure.MemoryGPUNotUpdated⟩
    else
      let r3 : ezResource := { r2 with m_MemoryUsage := MemUsage }
      let e : ezResourceEvent :=
        { m_pResource := r3.m_pThis
          m_EventType := ezResourceEventType.ResourceContentUpdated }
      ⟨r3, [(e, r3)], none⟩

/-- The body of `SetFallbackResource` from `EZ_RESOURCE_DECLARE_COMMON_CODE`:
`m_hFallback = hResource;` followed by
`m_Flags.AddOrRemove(ezResourceFlags::ResourceHasFallback, m_hFallback.IsValid());`.
The enumeration `ezResourceFlags` is declared outside the files at hand: the flag
`ResourceHasFallback` is bit `k` of a storage type of `w` bits. -/
def SetFallbackResource (w k : Nat) (self : ezResource)
    (hResource : ezTypedResourceHandle) : ezResource :=
  let r1 : ezResource := { self with m_hFallback := hResource }
  { r1 with m_Flags := ezBitflags.AddOrRemove w r1.m_Flags (2 ^ k) r1.m_hFallback.IsValid }

end ezResource

/-! ## The scoped guard `ezResourceLock` (`ResourceManager.h`) -/

/-- The acquire modes named in the files at hand (`ezResourceAcquireMode`). -/
inductive ezResourceAcquireMode where
  | AllowFallback
  | NoFallback
  deriving DecidableEq, Repr

/-- A call into the manager made by a lock: `BeginAcquireResource` with its four
inputs and the pointer it returned, or `EndAcquireResource` with its argument. -/
inductive AcquireCall where
  | Begin (hResource : ezTypedResourceHandle) (mode : ezResourceAcquireMode)
      (hFallbackResource : ezTypedResourceHandle) (Priority : Nat) (returned : Nat)
  | End (pResource : Nat)
  deriving DecidableEq, Repr

namespace AcquireCall

/-- A call of `BeginAcquireResource`. -/
def isBegin : AcquireCall → Bool
  | Begin _ _ _ _ _ => true
  | End _ => false

/-- A call of `BeginAcquireResource` that returned a resource (a non-null pointer). -/
def isAcquired : AcquireCall → Bool
  | Begin _ _ _ _ returned => returned != 0
  | End _ => false

/-- A call of `EndAcquireResource`. -/
def isEnd : AcquireCall → Bool
  | Begin _ _ _ _ _ => false
  | End _ => true

end AcquireCall

/-- The constructor arguments of one `ezResourceLock`. -/
structure LockArgs where
  hResource : ezTypedResourceHandle
  mode : ezResourceAcquireMode
  hFallbackResource : ezTypedResourceHandle
  Priority : Nat
  deriving DecidableEq, Repr

/-- The data members of `ezResourceLock`. -/
structure ezResourceLock where
  m_AcquireResult : Nat
  m_pResource : Nat
  deriving DecidableEq, Repr

/-- The manager function `BeginAcquireResource` as the lock sees it: from the calls
made so far and the arguments it yields the pointer (null is `0`) and the value it
writes to `out_AcquireResult`. -/
abbrev BeginAcquire := List AcquireCall → LockArgs → Nat × Nat

namespace ezResourceLock

/-- The constructor: one call of `BeginAcquireResource`, whose result is stored in
`m_pResource` and whose out-parameter is `m_AcquireResult`. -/
def ctor (BeginAcquireResource : BeginAcquire) (log : List AcquireCall) (args : LockArgs) :
    ezResourceLock × List AcquireCall :=
  let r := BeginAcquireResource log args
  (⟨r.2, r.1⟩,
    log ++ [AcquireCall.Begin args.hResource args.mode args.hFallbackResource args.Priority r.1])

/-- The destructor: `if (m_pResource) EndAcquireResource(m_pResource);`. -/
def dtor (lock : ezResourceLock) (log : List AcquireCall) : List AcquireCall :=
  if lock.m_pResource ≠ 0 then log ++ [AcquireCall.End lock.m_pResource] else log

/-- The conversion `operator bool`: `return m_pResource != nullptr;`. -/
def toBool (lock : ezResourceLock) : Bool :=
  lock.m_pResource != 0

/-- One lock scope: the lock is constructed and, at the end of the scope, destroyed. -/
def scope (BeginAcquireResource : BeginAcquire) (log : List AcquireCall) (args : LockArgs) :
    List AcquireCall :=
  let c := ctor BeginAcquireResource log args
  dtor c.1 c.2

/-- A sequence of lock scopes, one after the other. -/
def runScopes (BeginAcquireResource : BeginAcquire) :
    List LockArgs → List AcquireCall → List AcquireCall
  | [], log => log
  | args :: rest, log => runScopes BeginAcquireResource rest (scope BeginAcquireResource log args)

end ezResourceLock

/-! ## The registry behind `LoadResource` -/

/-- One entry of the type-override table (`struct DerivedTypeInfo`): the derived
type, an `ezRTTI` address, and the decider run on the resource ID. -/
structure DerivedTypeInfo where
  m_pDerivedType : Nat
  m_Decider : String → Bool

/-- The static tables of `ezResourceManager` that a lookup by ID consults. The keys
of `ezHashTable<ezTempHashedString, _>` are the hashed string forms of IDs; by the
specification "two distinct strings are always distinct keys", so a key is held
as the string it stands for. The tables are lists of (key, value) pairs:
* `s_LoadedResources`: (resource type, ID) to the address of the instance (the
  two-level table `s_LoadedResources[pRtti].m_Resources[hashedID]`);
* `s_NamedResources`: lookup name to the ID it redirects to;
* `s_DerivedTypeInfos`: base type to its ordered list of overrides. -/
structure Registry where
  s_LoadedResources : List ((Nat × String) × Nat)
  s_NamedResources : List (String × String)
  s_DerivedTypeInfos : List (Nat × List DerivedTypeInfo)

namespace Registry

/-- The registry after startup: all three tables are empty. -/
def empty : Registry := ⟨[], [], []⟩

/-- A hash-table lookup (`TryGetValue`): the value stored under `key`, if any. -/
def TryGetValue {K V : Type} [DecidableEq K] : List (K × V) → K → Option V
  | [], _ => none
  | (k, v) :: rest, key => if k = key then some v else TryGetValue rest key

/-- The address handed out for a newly allocated instance: one that no instance in
the table occupies (and not the null address). -/
def freshAddress (table : List ((Nat × String) × Nat)) : Nat :=
  (table.map Prod.snd).foldr max 0 + 1

/-- No two entries of the instance table hold the same instance. -/
def WellFormed (reg : Registry) : Prop :=
  (reg.s_LoadedResources.map Prod.snd).Nodup

instance (reg : Registry) : Decidable reg.WellFormed := by
  unfold WellFormed; infer_instance

/-- Modelled from the spec: `RegisterNamedResource` is declared in
`ResourceManager.h` and defined outside the files at hand. It records that a lookup
of `szLookupName` is redirected to `szRedirectionResource`; "if the lookup name
already exists, it will be overwritten". -/
def RegisterNamedResource (reg : Registry)
    (szLookupName szRedirectionResource : String) : Registry :=
  { reg with
    s_NamedResources :=
      (szLookupName, szRedirectionResource) ::
        reg.s_NamedResources.filter (fun e => e.1 ≠ szLookupName) }

/-- Modelled from the spec: the redirection of a requested ID through the alias
table, "resolved at request time, transparent to callers". -/
def resolveNamedResource (reg : Registry) (szResourceID : String) :
    String :=
  match TryGetValue reg.s_NamedResources szResourceID with
  | some redirection => redirection
  | none => szResourceID

/-- Modelled from the spec: `FindResourceTypeOverride` is declared in
`ResourceManager.h` and defined outside the files at hand. Per base type the table
holds an ordered list of (derived type, decider over the resolved ID); the first
decider returning true wins, and without one the requested type is used. -/
def FindResourceTypeOverride (reg : Registry) (pRtti : Nat) (szResourceID : String) : Nat :=
  match TryGetValue reg.s_DerivedTypeInfos pRtti with
  | none => pRtti
  | some infos =>
    match infos.find? (fun info => info.m_Decider szResourceID) with
    | some info => info.m_pDerivedType
    | none => pRtti

/-- The key under which a request for (`pRtti`, `szResourceID`) is looked up in
`s_LoadedResources`: the type after override and the ID after redirection. -/
def resourceKey (reg : Registry) (pRtti : Nat) (szResourceID : String) :
    Nat × String :=
  let resolved := resolveNamedResource reg szResourceID
  (FindResourceTypeOverride reg pRtti resolved, resolved)

/-- Modelled from the spec: `LoadResource` is declared in `ResourceManager.h` and
defined in `Implementation/ResourceManager_inl.h`, which is not among the files at
hand. It "returns existing handle or creates an Unloaded instance and returns a
handle to it"; the "ID is matched by its hashed string form; two distinct strings
are always distinct keys", after alias redirection and type override. The result
is the registry after the call and the handle, which references the instance by
its address. -/
def LoadResource (reg : Registry) (pRtti : Nat) (szResourceID : String) :
    Registry × ezTypedResourceHandle :=
  let key := resourceKey reg pRtti szResourceID
  match TryGetValue reg.s_LoadedResources key with
  | some pResource => (reg, ⟨pResource⟩)
  | none =>
    let pResource := freshAddress reg.s_LoadedResources
    ({ reg with s_LoadedResources := (key, pResource) :: reg.s_LoadedResources }, ⟨pResource⟩)

/-- Whether `LoadResource(A)` followed by `LoadResource(B)`, both for type `pRtti`,
return handles to the same resource instance. -/
def sameInstance (reg : Registry) (pRtti : Nat) (A B : String) : Prop :=
  (LoadResource reg pRtti A).2 =
    (LoadResource (LoadResource reg pRtti A).1 pRtti B).2

end Registry

/-! ## Per-type fallback slots (`EZ_RESOURCE_DECLARE_COMMON_CODE`, `ResourceManager.h`) -/

/-- The static state that setting a per-type fallback touches: the two static
handles `s_TypeLoadingFallback` and `s_TypeMissingFallback` of the resource type,
the manager's list `s_ResourceCleanupCallbacks` (a callback is the address of the
function), and the calls made into the manager by the validation lock. -/
structure TypeFallbacks where
  s_TypeLoadingFallback : ezTypedResourceHandle
  s_TypeMissingFallback : ezTypedResourceHandle
  s_ResourceCleanupCallbacks : List Nat
  m_AcquireCalls : List AcquireCall
  deriving DecidableEq, Repr

/-- What the fallback setters take from outside the files at hand: the manager
functions `BeginAcquireResource` and `AddResourceCleanupCallback` (which acts on the
callback list), the value of `ezResourcePriority::Unchanged`, and the address of
`SELF::CleanupDynamicPluginReferences`. -/
structure FallbackEnv where
  BeginAcquireResource : BeginAcquire
  AddResourceCleanupCallback : List Nat → Nat → List Nat
  PriorityUnchanged : Nat
  pCleanupDynamicPluginReferences : Nat

namespace TypeFallbacks

/-- The macro `EZ_RESOURCE_VALIDATE_FALLBACK` in a development build: for a valid
handle, one scope of `ezResourceLock<SELF> lock(hResource, NoFallback)`. -/
def EZ_RESOURCE_VALIDATE_FALLBACK (env : FallbackEnv) (self : TypeFallbacks)
    (hResource : ezTypedResourceHandle) : TypeFallbacks :=
  if hResource.IsValid then
    { self with
      m_AcquireCalls :=
        ezResourceLock.scope env.BeginAcquireResource self.m_AcquireCalls
          ⟨hResource, ezResourceAcquireMode.NoFallback, ⟨0⟩, env.PriorityUnchanged⟩ }
  else self

/-- The static member `SELF::SetResourceTypeLoadingFallback`. -/
def SELF_SetResourceTypeLoadingFallback (env : FallbackEnv) (self : TypeFallbacks)
    (hResource : ezTypedResourceHandle) : TypeFallbacks :=
  let s1 : TypeFallbacks := { self with s_TypeLoadingFallback := hResource }
  let s2 := EZ_RESOURCE_VALIDATE_FALLBACK env s1 hResource
  { s2 with
    s_ResourceCleanupCallbacks :=
      env.AddResourceCleanupCallback s2.s_ResourceCleanupCallbacks
        env.pCleanupDynamicPluginReferences }

/-- The static member `SELF::GetResourceTypeLoadingFallback`. -/
def SELF_GetResourceTypeLoadingFallback (self : TypeFallbacks) : ezTypedResourceHandle :=
  self.s_TypeLoadingFallback

/-- The static member `SELF::SetResourceTypeMissingFallback`. -/
def SELF_SetResourceTypeMissingFallback (env : FallbackEnv) (self : TypeFallbacks)
    (hResource : ezTypedResourceHandle) : TypeFallbacks :=
  let s1 : TypeFallbacks := { self with s_TypeMissingFallback := hResource }
  let s2 := EZ_RESOURCE_VALIDATE_FALLBACK env s1 hResource
  { s2 with
    s_ResourceCleanupCallbacks :=
      env.AddResourceCleanupCallback s2.s_ResourceCleanupCallbacks
        env.pCleanupDynamicPluginReferences }

/-- The static member `SELF::GetResourceTypeMissingFallback`. -/
def SELF_GetResourceTypeMissingFallback (self : TypeFallbacks) : ezTypedResourceHandle :=
  self.s_TypeMissingFallback

/-- The manager function `ezResourceManager::SetResourceTypeLoadingFallback`: it
forwards to the resource type. -/
def SetResourceTypeLoadingFallback (env : FallbackEnv) (self : TypeFallbacks)
    (hResource : ezTypedResourceHandle) : TypeFallbacks :=
  SELF_SetResourceTypeLoadingFallback env self hResource

/-- The manager function `ezResourceManager::GetResourceTypeLoadingFallback`. -/
def GetResourceTypeLoadingFallback (self : TypeFallbacks) : ezTypedResourceHandle :=
  SELF_GetResourceTypeLoadingFallback self

/-- The manager function `ezResourceManager::SetResourceTypeMissingFallback`: it
forwards to the resource type; its own development block for a valid handle has an
empty body. -/
def SetResourceTypeMissingFallback (env : FallbackEnv) (self : TypeFallbacks)
    (hResource : ezTypedResourceHandle) : TypeFallbacks :=
  let s1 := SELF_SetResourceTypeMissingFallback env self hResource
  if hResource.IsValid then s1 else s1

/-- The manager function `ezResourceManager::GetResourceTypeMissingFallback`. -/
def GetResourceTypeMissingFallback (self : TypeFallbacks) : ezTypedResourceHandle :=
  SELF_GetResourceTypeMissingFallback self

end TypeFallbacks

/-! ## The worker pools (`ResourceManager.h`) -/

namespace ezResourceManager

/-- The constant `static const ezUInt32 MaxDiskReadTasks = 2;`. -/
def MaxDiskReadTasks : Nat := 2

/-- The constant `static const ezUInt32 MaxMainThreadTasks = 16;`. -/
def MaxMainThreadTasks : Nat := 16

/-- The two static task arrays and their cursors. `m_WorkerTasksDiskRead` has
`MaxDiskReadTasks` slots and `m_WorkerTasksMainThread` has `MaxMainThreadTasks`
slots; a slot holds a task of the pool's own class. The cursors are `ezUInt8`
members. -/
structure WorkerPools (DiskReadTask MainThreadTask : Type) where
  m_WorkerTasksDiskRead : Fin MaxDiskReadTasks → DiskReadTask
  m_WorkerTasksMainThread : Fin MaxMainThreadTasks → MainThreadTask
  m_iCurrentWorkerMainThread : Nat
  m_iCurrentWorkerDiskRead : Nat

/-- The number of values an `ezUInt8` can hold. -/
def ezUInt8Range : Nat := 2 ^ 8

namespace WorkerPools

variable {DiskReadTask MainThreadTask : Type}

/-- An assignment to `m_WorkerTasksDiskRead[i]`. -/
def setDiskRead (pools : WorkerPools DiskReadTask MainThreadTask)
    (i : Fin MaxDiskReadTasks) (task : DiskReadTask) :
    WorkerPools DiskReadTask MainThreadTask :=
  { pools with m_WorkerTasksDiskRead := Function.update pools.m_WorkerTasksDiskRead i task }

/-- An assignment to `m_WorkerTasksMainThread[i]`. -/
def setMainThread (pools : WorkerPools DiskReadTask MainThreadTask)
    (i : Fin MaxMainThreadTasks) (task : MainThreadTask) :
    WorkerPools DiskReadTask MainThreadTask :=
  { pools with
    m_WorkerTasksMainThread := Function.update pools.m_WorkerTasksMainThread i task }

end WorkerPools

end ezResourceManager

/-! ## The game grid (`Utilities/DataStructures/GameGrid.h`) -/

/-- The value of an arithmetic result as a 32-bit signed integer (`int`, `ezInt32`),
wrapping around in two's complement. -/
def toInt32 (z : Int) : Int :=
  (z + 2 ^ 31) % 2 ^ 32 - 2 ^ 31

/-- The conversion of an integer value to `ezUInt32`, modulo `2 ^ 32`. -/
def toUInt32 (z : Int) : Nat :=
  (z % 2 ^ 32).toNat

/-- The product of two `int` values: the exact product when it lies in the range of
`int`, from `-2 ^ 31` to `2 ^ 31 - 1`, and no result when it overflows. -/
def mulInt32 (a b : Int) : Option Int :=
  if -(2 ^ 31) ≤ a * b ∧ a * b < 2 ^ 31 then some (a * b) else none

/-- A cell coordinate (`ezVec2I32`): two `ezInt32` components. -/
structure ezVec2I32 where
  x : Int
  y : Int
  deriving DecidableEq, Repr

/-- The two size members of `ezGameGrid`; both are `ezUInt16` values. -/
structure ezGameGrid where
  m_uiGridSizeX : Nat
  m_uiGridSizeY : Nat
  deriving DecidableEq, Repr

namespace ezGameGrid

/-- The member `GetNumCells`: `return m_uiGridSizeX * m_uiGridSizeY;`. Both
`ezUInt16` operands are promoted to `int` and multiplied as `int`; the return
converts the product to `ezUInt32`. A product that no `int` holds is an overflow,
for which the multiplication has no defined result: `none`. -/
def GetNumCells (self : ezGameGrid) : Option Nat :=
  (mulInt32 (self.m_uiGridSizeX : Int) (self.m_uiGridSizeY : Int)).map toUInt32

/-- The number of cells that `GetNumCells` stands for when its 32-bit arithmetic is
read modulo `2 ^ 32`, the `int` product wrapping around in two's complement. -/
def GetNumCellsModulo32 (self : ezGameGrid) : Nat :=
  toUInt32 (toInt32 ((self.m_uiGridSizeX : Int) * (self.m_uiGridSizeY : Int)))

/-- The member `ConvertCellIndexToCoordinate`:
`return ezVec2I32(uiIndex % m_uiGridSizeX, uiIndex / m_uiGridSizeX);`. The
arithmetic is unsigned, the constructor takes `ezInt32` components; with a grid of
width zero the division has no result. -/
def ConvertCellIndexToCoordinate (self : ezGameGrid) (uiIndex : Nat) : Option ezVec2I32 :=
  if self.m_uiGridSizeX = 0 then none
  else
    some ⟨toInt32 ((uiIndex % self.m_uiGridSizeX : Nat) : Int),
      toInt32 ((uiIndex / self.m_uiGridSizeX : Nat) : Int)⟩

/-- The member `ConvertCellCoordinateToIndex`:
`return Coord.y * m_uiGridSizeX + Coord.x;`, computed in `int` and converted to
`ezUInt32` by the return. -/
def ConvertCellCoordinateToIndex (self : ezGameGrid) (Coord : ezVec2I32) : Nat :=
  toUInt32 (toInt32 (toInt32 (Coord.y * (self.m_uiGridSizeX : Int)) + Coord.x))

end ezGameGrid

/-! ## Loading a sprite particle type (`ParticleTypeSprite.cpp`) -/

namespace TypeSpriteVersion

/-- The enumerator `Version_0 = 0`. -/
def Version_0 : Nat := 0

/-- The enumerator `Version_1`. -/
def Version_1 : Nat := Version_0 + 1

/-- The enumerator `Version_2` (added texture). -/
def Version_2 : Nat := Version_1 + 1

/-- The enumerator `Version_3` (added sprite rotation mode). -/
def Version_3 : Nat := Version_2 + 1

/-- The enumerator `Version_Count`, one past the last version. -/
def Version_Count : Nat := Version_3 + 1

/-- The enumerator `Version_Current = Version_Count - 1`. -/
def Version_Current : Nat := Version_Count - 1

end TypeSpriteVersion

/-- The extraction operators of `ezStreamReader` that `Load` uses, over a stream
state `S`: each returns the value read and the stream after the read. The stream
classes are declared outside the files at hand. -/
structure ezStreamReader (S : Type) where
  ReadUInt8 : S → Nat × S
  ReadString : S → String × S
  ReadAxis : S → Nat × S

/-- The two serialized members of `ezParticleTypeSpriteFactory`; the rotation axis
is held by its storage value. -/
structure ezParticleTypeSpriteFactory where
  m_sTexture : String
  m_RotationAxis : Nat
  deriving DecidableEq, Repr

/-- How a call of `Load` ends: it returns, leaving the factory and the stream as
given, or the version assertion fails. -/
inductive LoadOutcome (S : Type) where
  | Loaded (self : ezParticleTypeSpriteFactory) (stream : S)
  | InvalidVersion (uiVersion : Nat)

namespace ezParticleTypeSpriteFactory

/-- The member `Load` in a development build: the version byte is read, checked
against `Version_Current`, and gates the two further reads. -/
def Load {S : Type} (reader : ezStreamReader S) (self : ezParticleTypeSpriteFactory)
    (stream : S) : LoadOutcome S :=
  let r0 := reader.ReadUInt8 stream
  let uiVersion := r0.1
  if ¬ uiVersion ≤ TypeSpriteVersion.Version_Current then
    LoadOutcome.InvalidVersion uiVersion
  else
    let r1 : ezParticleTypeSpriteFactory × S :=
      if uiVersion ≥ 2 then
        ({ self with m_sTexture := (reader.ReadString r0.2).1 }, (reader.ReadString r0.2).2)
      else (self, r0.2)
    let r2 : ezParticleTypeSpriteFactory × S :=
      if uiVersion ≥ 3 then
        ({ r1.1 with m_RotationAxis := (reader.ReadAxis r1.2).1 }, (reader.ReadAxis r1.2).2)
      else r1
    LoadOutcome.Loaded r2.1 r2.2

end ezParticleTypeSpriteFactory

/-! ## Path search (`GameUtils/PathFinding/Implementation/GraphSearch_inl.h`) -/

/-- The members of a path state (`PathStateType`) that the search reads and writes;
the cost type `C` stands for `float`, ordered linearly. -/
structure ezPathState (C : Type) where
  m_iReachedThroughNode : Int
  m_fCostToNode : C
  m_fEstimatedCostToTarget : C
  deriving DecidableEq, Repr

namespace ezHashTable

/-- Modelled from the spec: the container `ezHashTable` is declared in
`Foundation/Containers/HashTable.h`, which is not among the files at hand, and the
specification does not describe it; it is embedded as a finite map, a list of
(key, value) pairs with one pair per key. `TryGetValue` yields the value stored
under `key`, if there is one. -/
def TryGetValue {K V : Type} [DecidableEq K] : List (K × V) → K → Option V
  | [], _ => none
  | (k, v) :: rest, key => if k = key then some v else TryGetValue rest key

/-- Modelled from the spec: storing `value` under `key` (see `TryGetValue`): the
value under an existing key is replaced in place, a new key is added at the end. -/
def Insert {K V : Type} [DecidableEq K] : List (K × V) → K → V → List (K × V)
  | [], key, value => [(key, value)]
  | (k, v) :: rest, key, value =>
    if k = key then (key, value) :: rest else (k, v) :: Insert rest key value

/-- Modelled from the spec: `operator[]` (see `TryGetValue`): a reference to the
value under `key`, which is first inserted default-constructed when the key is
absent. The result is the table after the access and the value referenced. -/
def Index {K V : Type} [DecidableEq K] (table : List (K × V)) (key : K) (Default : V) :
    List (K × V) × V :=
  match TryGetValue table key with
  | some v => (table, v)
  | none => (Insert table key Default, Default)

end ezHashTable

/-- Modelled from the spec: `ezDeque::RemoveAtSwap` is declared in
`Foundation/Containers/Deque.h`, which is not among the files at hand, and the
specification does not describe it; by its name and use, the element at `index` is
overwritten with the last element and the last slot is dropped. -/
def ezDeque.RemoveAtSwap (queue : List Int) (index : Nat) : List Int :=
  if index < queue.length then
    match queue.getLast? with
    | some last => (queue.set index last).dropLast
    | none => queue
  else queue

/-- The two values of `ezResult`. -/
inductive ezResult where
  | EZ_SUCCESS
  | EZ_FAILURE
  deriving DecidableEq, Repr

/-- The ways a call into the path search aborts: the three `EZ_ASSERT` checks of
`AddPathNode`, the `EZ_ASSERT` of `FindBestNodeToExpand`, an access through a null
`m_pCurPathState`, and an access past the end of the queue. -/
inductive PathSearchAbort where
  | CostsMustGrow
  | EstimateWentDown
  | UnrealisticExpectations
  | ImplementationError
  | NullPathState
  | IndexOutOfRange
  deriving DecidableEq, Repr

/-- The data members of `ezPathSearch`. The pointer `m_pCurPathState` points into
`m_PathStates`; it is held as the key of the entry it points to (`none` is `NULL`). -/
structure ezPathSearch (C : Type) where
  m_PathStates : List (Int × ezPathState C)
  m_StateQueue : List Int
  m_iCurNodeIndex : Int
  m_pCurPathState : Option Int
  deriving DecidableEq, Repr

/-- The local variables of the loop in `FindBestNodeToExpand`, together with the
state table, which `operator[]` may extend. -/
structure BestLoopVars (C : Type) where
  m_PathStates : List (Int × ezPathState C)
  fLowestEstimation : C
  out_pPathState : Option Int
  iBestInQueue : Nat
  deriving DecidableEq, Repr

/-- How a call of `FindPath` ends: it returns a result, leaving the search object
and `out_Path` as given; an assertion aborts it; or the fuel of the embedding runs
out before it returns. -/
inductive FindPathOutcome (C : Type) where
  | Returned (result : ezResult) (search : ezPathSearch C) (out_Path : List Int)
  | Aborted (reason : PathSearchAbort)
  | OutOfFuel
  deriving DecidableEq, Repr

namespace ezPathSearch

variable {C : Type} [LinearOrder C]

/-- The member `ClearPathStates`. -/
def ClearPathStates (self : ezPathSearch C) : ezPathSearch C :=
  { self with m_PathStates := [], m_StateQueue := [] }

/-- The `for` loop of `FindBestNodeToExpand` over the queue entries from index `i`
on: an entry whose state has a strictly lower estimate becomes the best so far. -/
def findBestLoop (Default : ezPathState C) :
    List Int → Nat → BestLoopVars C → BestLoopVars C
  | [], _, vars => vars
  | iNodeIndex :: rest, i, vars =>
    let acc := ezHashTable.Index vars.m_PathStates iNodeIndex Default
    let pState := acc.2
    if pState.m_fEstimatedCostToTarget < vars.fLowestEstimation then
      findBestLoop Default rest (i + 1)
        ⟨acc.1, pState.m_fEstimatedCostToTarget, some iNodeIndex, i⟩
    else
      findBestLoop Default rest (i + 1) { vars with m_PathStates := acc.1 }

/-- The member `FindBestNodeToExpand`: the search object after the call, the node
index returned and the value of `out_pPathState`. `Infinity` is
`ezMath::BasicType<float>::GetInfinity()`, `Default` a default-constructed state. -/
def FindBestNodeToExpand (Infinity : C) (Default : ezPathState C) (self : ezPathSearch C) :
    Except PathSearchAbort (ezPathSearch C × Int × Option Int) :=
  let vars := findBestLoop Default self.m_StateQueue 0 ⟨self.m_PathStates, Infinity, none, 0⟩
  match vars.out_pPathState with
  | none => Except.error PathSearchAbort.ImplementationError
  | some pState =>
    match self.m_StateQueue[vars.iBestInQueue]? with
    | none => Except.error PathSearchAbort.IndexOutOfRange
    | some iBestNodeIndex =>
      Except.ok
        ({ self with
            m_PathStates := vars.m_PathStates
            m_StateQueue := ezDeque.RemoveAtSwap self.m_StateQueue vars.iBestInQueue },
          iBestNodeIndex, some pState)

/-- The member `FillOutPathResult`, after `out_Path.Clear()`: one round of the
`while (true)` loop per unit of fuel; `none` when the fuel runs out before the loop
returns. The result is the state table after the accesses and the path. -/
def FillOutPathResult (Default : ezPathState C) :
    Nat → List (Int × ezPathState C) → Int → List Int →
      Option (List (Int × ezPathState C) × List Int)
  | 0, _, _, _ => none
  | fuel + 1, table, iEndNodeIndex, out_Path =>
    let out_Path := iEndNodeIndex :: out_Path
    let acc := ezHashTable.Index table iEndNodeIndex Default
    let pCurState := acc.2
    if iEndNodeIndex = pCurState.m_iReachedThroughNode then some (acc.1, out_Path)
    else FillOutPathResult Default fuel acc.1 pCurState.m_iReachedThroughNode out_Path

/-- The member `AddPathNode`: the three assertions against the current state, then
the three cases on the state already stored for `iNodeIndex`. -/
def AddPathNode (self : ezPathSearch C) (iNodeIndex : Int) (NewState : ezPathState C) :
    Except PathSearchAbort (ezPathSearch C) :=
  match self.m_pCurPathState.bind (ezHashTable.TryGetValue self.m_PathStates) with
  | none => Except.error PathSearchAbort.NullPathState
  | some pCurPathState =>
    if ¬ NewState.m_fCostToNode > pCurPathState.m_fCostToNode then
      Except.error PathSearchAbort.CostsMustGrow
    else if ¬ NewState.m_fEstimatedCostToTarget ≥ pCurPathState.m_fEstimatedCostToTarget then
      Except.error PathSearchAbort.EstimateWentDown
    else if ¬ NewState.m_fEstimatedCostToTarget ≥ NewState.m_fCostToNode then
      Except.error PathSearchAbort.UnrealisticExpectations
    else
      match ezHashTable.TryGetValue self.m_PathStates iNodeIndex with
      | some pExistingState =>
        if pExistingState.m_fCostToNode ≤ NewState.m_fCostToNode then Except.ok self
        else
          Except.ok
            { self with
              m_PathStates :=
                ezHashTable.Insert self.m_PathStates iNodeIndex
                  { NewState with m_iReachedThroughNode := self.m_iCurNodeIndex } }
      | none =>
        Except.ok
          { self with
            m_PathStates :=
              ezHashTable.Insert self.m_PathStates iNodeIndex
                { NewState with m_iReachedThroughNode := self.m_iCurNodeIndex }
            m_StateQueue := self.m_StateQueue ++ [iNodeIndex] }

/-- The calls of `AddPathNode` that one call of `GenerateAdjacentStates` makes, in
order; the first assertion that fails aborts the rest. -/
def AddPathNodes (self : ezPathSearch C) :
    List (Int × ezPathState C) → Except PathSearchAbort (ezPathSearch C)
  | [] => Except.ok self
  | (iNodeIndex, NewState) :: rest =>
    match AddPathNode self iNodeIndex NewState with
    | Except.error reason => Except.error reason
    | Except.ok next => AddPathNodes next rest

/-- The `while (!m_StateQueue.IsEmpty())` loop of `FindPath`, one round per unit of
fuel. `GenerateAdjacentStates` is the state generator: for the node being expanded
and its state it yields the `AddPathNode` calls it makes. -/
def searchLoop (GenerateAdjacentStates : Int → ezPathState C → List (Int × ezPathState C))
    (Infinity : C) (Default : ezPathState C) (iTargetNodeIndex : Int) (fMaxPathCost : C)
    (out_Path : List Int) : Nat → ezPathSearch C → FindPathOutcome C
  | 0, self =>
    if self.m_StateQueue.isEmpty then
      FindPathOutcome.Returned ezResult.EZ_FAILURE self out_Path
    else FindPathOutcome.OutOfFuel
  | fuel + 1, self =>
    if self.m_StateQueue.isEmpty then
      FindPathOutcome.Returned ezResult.EZ_FAILURE self out_Path
    else
      match FindBestNodeToExpand Infinity Default self with
      | Except.error reason => FindPathOutcome.Aborted reason
      | Except.ok (s1, iBest, pBest) =>
        let s2 : ezPathSearch C := { s1 with m_iCurNodeIndex := iBest, m_pCurPathState := pBest }
        if s2.m_iCurNodeIndex = iTargetNodeIndex then
          match FillOutPathResult Default s2.m_PathStates.length s2.m_PathStates
              s2.m_iCurNodeIndex [] with
          | none => FindPathOutcome.OutOfFuel
          | some (table, path) =>
            FindPathOutcome.Returned ezResult.EZ_SUCCESS { s2 with m_PathStates := table } path
        else
          match s2.m_pCurPathState.bind (ezHashTable.TryGetValue s2.m_PathStates) with
          | none => FindPathOutcome.Aborted PathSearchAbort.NullPathState
          | some pCurPathState =>
            if pCurPathState.m_fEstimatedCostToTarget ≥ fMaxPathCost then
              FindPathOutcome.Returned ezResult.EZ_FAILURE s2 out_Path
            else
              match AddPathNodes s2 (GenerateAdjacentStates s2.m_iCurNodeIndex pCurPathState) with
              | Except.error reason => FindPathOutcome.Aborted reason
              | Except.ok s3 =>
                searchLoop GenerateAdjacentStates Infinity Default iTargetNodeIndex
                  fMaxPathCost out_Path fuel s3

/-- The search object when the loop of `FindPath` is entered: the tables are
cleared, the start state is stored under the start node referencing itself, and
the start node is queued. -/
def startSearch (self : ezPathSearch C) (iStartNodeIndex : Int) (StartState : ezPathState C) :
    ezPathSearch C :=
  let s0 := self.ClearPathStates
  { s0 with
    m_PathStates :=
      ezHashTable.Insert s0.m_PathStates iStartNodeIndex
        { StartState with m_iReachedThroughNode := iStartNodeIndex }
    m_StateQueue := s0.m_StateQueue ++ [iStartNodeIndex] }

/-- The member `FindPath`; `fuel` bounds the rounds of its loop. -/
def FindPath (GenerateAdjacentStates : Int → ezPathState C → List (Int × ezPathState C))
    (Infinity : C) (Default : ezPathState C) (fuel : Nat) (self : ezPathSearch C)
    (iStartNodeIndex : Int) (StartState : ezPathState C) (iTargetNodeIndex : Int)
    (out_Path : List Int) (fMaxPathCost : C) : FindPathOutcome C :=
  searchLoop GenerateAdjacentStates Infinity Default iTargetNodeIndex fMaxPathCost out_Path
    fuel (self.startSearch iStartNodeIndex StartState)

end ezPathSearch

namespace ezPathSearch

variable {C : Type} [LinearOrder C]

/-- The state that `m_PathStates[iNodeIndex]` refers to. -/
def StateAt (Default : ezPathState C) (self : ezPathSearch C) (iNodeIndex : Int) :
    ezPathState C :=
  (ezHashTable.Index self.m_PathStates iNodeIndex Default).2

end ezPathSearch

namespace ezPathSearch

variable {C : Type} [LinearOrder C]

/-- What the loop of `FindBestNodeToExpand` has established after the queue entries
`queue` for the estimate `est` of each node: either no entry was below `Infinity`
and nothing is selected, or the selected entry is the first one of least estimate. -/
def BestSoFar (est : Int → C) (Infinity : C) (queue : List Int) (vars : BestLoopVars C) : Prop :=
  (vars.out_pPathState = none ∧ vars.fLowestEstimation = Infinity ∧
    ∀ n ∈ queue, ¬ est n < Infinity) ∨
  (∃ b : Int, vars.out_pPathState = some b ∧ queue[vars.iBestInQueue]? = some b ∧
    vars.fLowestEstimation = est b ∧ est b < Infinity ∧
    (∀ n ∈ queue, est b ≤ est n) ∧
    (∀ (j : Nat) (m : Int), j < vars.iBestInQueue → queue[j]? = some m → est b < est m))

end ezPathSearch

namespace ezPathSearch

variable {C : Type} [LinearOrder C]

/-- The states a search object passes through between two statements of a `FindPath`
run for the start node `iStartNodeIndex` and the start state `StartState`: the
state on entry to the loop, the state after a `FindBestNodeToExpand` whose result
was assigned to `m_iCurNodeIndex` and `m_pCurPathState`, and the state after
an `AddPathNode` call that returned, made while a node is being expanded. The flag
tells whether a node is being expanded. -/
inductive InRun (Infinity : C) (Default : ezPathState C) (iStartNodeIndex : Int)
    (StartState : ezPathState C) : Bool → ezPathSearch C → Prop where
  | start (self : ezPathSearch C) :
    InRun Infinity Default iStartNodeIndex StartState false
      (self.startSearch iStartNodeIndex StartState)
  | expand (expanding : Bool) (s s1 : ezPathSearch C) (iBest : Int) (pBest : Option Int) :
    InRun Infinity Default iStartNodeIndex StartState expanding s →
    FindBestNodeToExpand Infinity Default s = Except.ok (s1, iBest, pBest) →
    InRun Infinity Default iStartNodeIndex StartState true
      { s1 with m_iCurNodeIndex := iBest, m_pCurPathState := pBest }
  | add (s next : ezPathSearch C) (iNodeIndex : Int) (NewState : ezPathState C) :
    InRun Infinity Default iStartNodeIndex StartState true s →
    AddPathNode s iNodeIndex NewState = Except.ok next →
    InRun Infinity Default iStartNodeIndex StartState true next

/-- The facts that hold of the search object throughout a run: the start node holds
the start state referencing itself; every other stored state was reached through a
stored node of strictly lower cost and costs more than the start state; every
queued node is stored; and while a node is expanded, `m_pCurPathState` points to
the stored state of `m_iCurNodeIndex`. -/
structure Invariant (iStartNodeIndex : Int) (StartState : ezPathState C) (expanding : Bool)
    (search : ezPathSearch C) : Prop where
  start_stored :
    ezHashTable.TryGetValue search.m_PathStates iStartNodeIndex
      = some { StartState with m_iReachedThroughNode := iStartNodeIndex }
  reached_lower : ∀ (n : Int) (sn : ezPathState C),
    ezHashTable.TryGetValue search.m_PathStates n = some sn → n ≠ iStartNodeIndex →
    ∃ sp : ezPathState C,
      ezHashTable.TryGetValue search.m_PathStates sn.m_iReachedThroughNode = some sp ∧
      sp.m_fCostToNode < sn.m_fCostToNode
  above_start : ∀ (n : Int) (sn : ezPathState C),
    ezHashTable.TryGetValue search.m_PathStates n = some sn → n ≠ iStartNodeIndex →
    StartState.m_fCostToNode < sn.m_fCostToNode
  queue_stored : ∀ n ∈ search.m_StateQueue,
    ∃ sn : ezPathState C, ezHashTable.TryGetValue search.m_PathStates n = some sn
  current_stored : expanding = true →
    search.m_pCurPathState = some search.m_iCurNodeIndex ∧
    ∃ sc : ezPathState C, ezHashTable.TryGetValue search.m_PathStates search.m_iCurNodeIndex = some sc

end ezPathSearch

namespace ezPathSearch

variable {C : Type} [LinearOrder C]

/-- In the state table, node `b` was reached through node `a`, and the state stored
for `a` costs strictly less than the one stored for `b`. -/
def ReachedFrom (table : List (Int × ezPathState C)) (a b : Int) : Prop :=
  ∃ sa sb : ezPathState C,
    ezHashTable.TryGetValue table a = some sa ∧ ezHashTable.TryGetValue table b = some sb ∧
    sb.m_iReachedThroughNode = a ∧ sa.m_fCostToNode < sb.m_fCostToNode

end ezPathSearch

/-! ## The crash handler (`Foundation/System/Implementation/CrashHandler.cpp`) -/

/-- The member `ezResult::Failed`: whether the result is `EZ_FAILURE`. -/
def ezResult.Failed (r : ezResult) : Bool :=
  r == ezResult.EZ_FAILURE

/-- The calls that `HandleCrash` makes, in the order of the source: the launch of
the external tool with the dump file path, the three log messages, and the two
platform members with the pointer they are given. -/
inductive CrashCall where
  | LaunchMiniDumpTool (szDumpFile : String)
  | LogErrorCouldNotLaunch
  | WriteOwnProcessMiniDump (pOsSpecificData : Nat)
  | LogWarningNoLocation
  | PrintStackTrace (pOsSpecificData : Nat)
  | LogErrorApplicationCrashed (szDumpFile : String)
  deriving DecidableEq, Repr

namespace CrashCall

/-- A call of `ezMiniDumpUtils::LaunchMiniDumpTool`. -/
def isLaunchMiniDumpTool : CrashCall → Bool
  | LaunchMiniDumpTool _ => true
  | _ => false

/-- A call of `WriteOwnProcessMiniDump`. -/
def isWriteOwnProcessMiniDump : CrashCall → Bool
  | WriteOwnProcessMiniDump _ => true
  | _ => false

/-- A call of `PrintStackTrace`. -/
def isPrintStackTrace : CrashCall → Bool
  | PrintStackTrace _ => true
  | _ => false

end CrashCall

/-- The data member of `ezCrashHandler_WriteMiniDump` that `HandleCrash` reads. -/
structure ezCrashHandler_WriteMiniDump where
  m_sDumpFilePath : String
  deriving DecidableEq, Repr

namespace ezCrashHandler_WriteMiniDump

/-- The member `SetFullDumpFilePath`. -/
def SetFullDumpFilePath (_self : ezCrashHandler_WriteMiniDump) (szFullAbsDumpFilePath : String) :
    ezCrashHandler_WriteMiniDump :=
  ⟨szFullAbsDumpFilePath⟩

/-- The member `HandleCrash`, as the list of calls it makes. `LaunchMiniDumpTool`
is `ezMiniDumpUtils::LaunchMiniDumpTool`, declared outside the files at hand: for a
dump file path it yields success or failure. -/
def HandleCrash (LaunchMiniDumpTool : String → ezResult) (self : ezCrashHandler_WriteMiniDump)
    (pOsSpecificData : Nat) : List CrashCall :=
  let dump : List CrashCall :=
    if ¬ self.m_sDumpFilePath = "" then
      if (LaunchMiniDumpTool self.m_sDumpFilePath).Failed then
        [CrashCall.LaunchMiniDumpTool self.m_sDumpFilePath, CrashCall.LogErrorCouldNotLaunch,
          CrashCall.WriteOwnProcessMiniDump pOsSpecificData]
      else [CrashCall.LaunchMiniDumpTool self.m_sDumpFilePath]
    else [CrashCall.LogWarningNoLocation]
  dump ++ [CrashCall.PrintStackTrace pOsSpecificData,
    CrashCall.LogErrorApplicationCrashed self.m_sDumpFilePath]

end ezCrashHandler_WriteMiniDump

/-! ## Concrete inputs -/

/-- A resource object before creation: unloaded, change counter 7, flag bits 0 and 4
set, no fallback. -/
def exampleResource : ezResource :=
  ⟨4096, ezResourceState.Unloaded, 0, 0, ⟨0, 0⟩, 7, 17, ⟨0⟩⟩

/-- A create step that satisfies the contract. -/
def exampleCreateResource : Unit → ezResourceLoadDesc :=
  fun _ => ⟨ezResourceState.Loaded, 0, 1⟩

/-- A create step that leaves the state at `Invalid`. -/
def exampleCreateInvalid : Unit → ezResourceLoadDesc :=
  fun _ => ⟨ezResourceState.Invalid, 0, 1⟩

/-- A memory query that fills in both totals. -/
def exampleUpdateMemoryUsage : MemoryUsage → MemoryUsage :=
  fun _ => ⟨128, 0⟩

/-- The registry after `RegisterNamedResource("MenuBackground", "Textures/Menu.tex")`. -/
def exampleRegistry : Registry :=
  Registry.RegisterNamedResource Registry.empty "MenuBackground" "Textures/Menu.tex"

/-- A `BeginAcquireResource` that finds the resource behind every valid handle. -/
def exampleBeginAcquire : BeginAcquire :=
  fun _ args => (args.hResource.m_pResource, 0)

/-- Three lock scopes: two on valid handles, one on an invalid handle. -/
def exampleScopes : List LockArgs :=
  [⟨⟨4096⟩, ezResourceAcquireMode.AllowFallback, ⟨0⟩, 0⟩,
   ⟨⟨0⟩, ezResourceAcquireMode.AllowFallback, ⟨0⟩, 0⟩,
   ⟨⟨8192⟩, ezResourceAcquireMode.NoFallback, ⟨0⟩, 0⟩]

/-- A graph of three nodes in a row, `0 - 1 - 2`, each edge of cost 10 and the
estimate equal to the cost so far: the `AddPathNode` calls made for a node. -/
def exampleGenerator (iNodeIndex : Int) (state : ezPathState Nat) :
    List (Int × ezPathState Nat) :=
  if iNodeIndex = 0 then [(1, ⟨0, state.m_fCostToNode + 10, state.m_fCostToNode + 10⟩)]
  else if iNodeIndex = 1 then
    [(0, ⟨0, state.m_fCostToNode + 10, state.m_fCostToNode + 10⟩),
     (2, ⟨0, state.m_fCostToNode + 10, state.m_fCostToNode + 10⟩)]
  else [(1, ⟨0, state.m_fCostToNode + 10, state.m_fCostToNode + 10⟩)]

/-- The value standing in for the `float` infinity in the example runs. -/
def exampleInfinity : Nat := 1000000

/-- A default-constructed path state. -/
def exampleDefaultState : ezPathState Nat := ⟨0, 0, 0⟩

/-- A search object before any search. -/
def exampleSearch : ezPathSearch Nat := ⟨[], [], 0, none⟩

/-- A search object in the middle of a search: start node 4 at cost 0, nodes 7 and
9 reached from it at cost 10, all three queued. -/
def exampleQueued : ezPathSearch Nat :=
  ⟨[(4, ⟨4, 0, 30⟩), (7, ⟨4, 10, 10⟩), (9, ⟨4, 10, 10⟩)], [4, 7, 9], 4, some 4⟩

/-- The search object after the example search from node 0 to node 2. -/
def exampleFound : ezPathSearch Nat :=
  ⟨[(0, ⟨0, 0, 0⟩), (1, ⟨0, 10, 10⟩), (2, ⟨1, 20, 20⟩)], [], 2, some 2⟩

/-- The search object of the example search after node 0 was expanded and node 1
stored. -/
def exampleExpanded : ezPathSearch Nat :=
  ⟨[(0, ⟨0, 0, 0⟩), (1, ⟨0, 10, 10⟩)], [1], 0, some 0⟩

/-- A stream reader over a list of numbers: a byte is the head of the list, the
axis value likewise, and a string is read as the texture name numbered by the
head. -/
def exampleReader : ezStreamReader (List Nat) :=
  ⟨fun s => (s.headD 0, s.tail),
    fun s => (if s.headD 0 = 7 then "Textures/Wood.tex" else "", s.tail),
    fun s => (s.headD 0, s.tail)⟩

/-- A sprite factory before loading. -/
def exampleFactory : ezParticleTypeSpriteFactory := ⟨"Old.tex", 1⟩

/-- An external dump tool that cannot be launched. -/
def exampleLaunchFails : String → ezResult :=
  fun _ => ezResult.EZ_FAILURE

/-- An external dump tool that is launched. -/
def exampleLaunchSucceeds : String → ezResult :=
  fun _ => ezResult.EZ_SUCCESS

/-! ## Theorems -/

namespace ezResourceManager

open LoadingInfo

/-- The value of `operator<` spelled out as a proposition. -/
theorem LoadingInfo.lt_iff {T : Type} [LinearOrder T] (a b : LoadingInfo T) :
    LoadingInfo.lt a b = true ↔
      (a.m_DueDate < b.m_DueDate ∨
        (a.m_DueDate = b.m_DueDate ∧ a.m_pResource < b.m_pResource)) := by
  unfold LoadingInfo.lt
  rcases lt_trichotomy a.m_DueDate b.m_DueDate with h | h | h
  · simp [h]
  · simp [h]
  · have h1 : ¬ a.m_DueDate < b.m_DueDate := not_lt.mpr (le_of_lt h)
    have h2 : a.m_DueDate ≠ b.m_DueDate := ne_of_gt h
    simp [h1, h2, h]

/-- Whether a search with `operator==` finds something depends only on the
resources stored in the queue. -/
theorem LoadingInfo.IndexOf_isSome_iff {T : Type} (queue : List (LoadingInfo T))
    (probe : LoadingInfo T) :
    (LoadingInfo.IndexOf queue probe).isSome = true ↔
      ∃ e ∈ queue, e.m_pResource = probe.m_pResource := by
  induction queue with
  | nil => simp [LoadingInfo.IndexOf]
  | cons e rest ih =>
    unfold LoadingInfo.IndexOf
    by_cases h : e.m_pResource = probe.m_pResource
    · simp [LoadingInfo.eq, h]
    · simp [LoadingInfo.eq, h, ih]

/-- C1: `LoadingInfo::operator<` orders entries by due date ascending with the
resource pointer as tie-breaker: `a < b` holds iff `a.m_DueDate < b.m_DueDate`, or
the due dates are equal and `a.m_pResource < b.m_pResource`; in particular an
entry with a strictly earlier due date comes before any entry with a later due
date, whatever the two resources are. -/
theorem C1_lt_orders_by_due_date_then_resource {T : Type} [LinearOrder T] :
    (∀ a b : LoadingInfo T,
      LoadingInfo.lt a b = true ↔
        (a.m_DueDate < b.m_DueDate ∨
          (a.m_DueDate = b.m_DueDate ∧ a.m_pResource < b.m_pResource))) ∧
    (∀ (d1 d2 : T) (r1 r2 : Nat), d1 < d2 →
      LoadingInfo.lt ⟨d1, r1⟩ ⟨d2, r2⟩ = true ∧ LoadingInfo.lt ⟨d2, r2⟩ ⟨d1, r1⟩ = false) := by
  refine ⟨fun a b => LoadingInfo.lt_iff a b, ?_⟩
  intro d1 d2 r1 r2 h
  constructor
  · exact (LoadingInfo.lt_iff _ _).mpr (Or.inl h)
  · cases hlt : LoadingInfo.lt (⟨d2, r2⟩ : LoadingInfo T) ⟨d1, r1⟩ with
    | false => rfl
    | true =>
      rcases (LoadingInfo.lt_iff _ _).mp hlt with h2 | ⟨h2, _⟩
      · exact absurd h (not_lt.mpr (le_of_lt h2))
      · simp only at h2
        exact absurd h (by rw [h2]; exact lt_irrefl _)

/-- C2: `LoadingInfo::operator<` is a strict total order on (due date, resource)
pairs: irreflexive, asymmetric, transitive, and, for two entries that differ in
due date or in resource, exactly one of `a < b`, `b < a` holds. -/
theorem C2_lt_strict_total_order {T : Type} [LinearOrder T] :
    (∀ a : LoadingInfo T, LoadingInfo.lt a a = false) ∧
    (∀ a b : LoadingInfo T, LoadingInfo.lt a b = true → LoadingInfo.lt b a = false) ∧
    (∀ a b c : LoadingInfo T, LoadingInfo.lt a b = true → LoadingInfo.lt b c = true →
      LoadingInfo.lt a c = true) ∧
    (∀ a b : LoadingInfo T, (a.m_DueDate ≠ b.m_DueDate ∨ a.m_pResource ≠ b.m_pResource) →
      ((LoadingInfo.lt a b = true ∧ LoadingInfo.lt b a = false) ∨
        (LoadingInfo.lt a b = false ∧ LoadingInfo.lt b a = true))) := by
  have asym : ∀ a b : LoadingInfo T, LoadingInfo.lt a b = true → LoadingInfo.lt b a = false := by
    intro a b hab
    cases hba : LoadingInfo.lt b a with
    | false => rfl
    | true =>
      rcases (LoadingInfo.lt_iff a b).mp hab with h1 | ⟨h1, h1r⟩
      · rcases (LoadingInfo.lt_iff b a).mp hba with h2 | ⟨h2, _⟩
        · exact absurd h1 (not_lt.mpr (le_of_lt h2))
        · rw [h2] at h1; exact absurd h1 (lt_irrefl _)
      · rcases (LoadingInfo.lt_iff b a).mp hba with h2 | ⟨_, h2r⟩
        · rw [h1] at h2; exact absurd h2 (lt_irrefl _)
        · omega
  refine ⟨?_, asym, ?_, ?_⟩
  · intro a
    cases haa : LoadingInfo.lt a a with
    | false => rfl
    | true => have := asym a a haa; rw [haa] at this; exact this
  · intro a b c hab hbc
    rw [LoadingInfo.lt_iff] at hab hbc ⊢
    rcases hab with h1 | ⟨h1, h1r⟩
    · rcases hbc with h2 | ⟨h2, _⟩
      · exact Or.inl (lt_trans h1 h2)
      · exact Or.inl (h2 ▸ h1)
    · rcases hbc with h2 | ⟨h2, h2r⟩
      · exact Or.inl (h1 ▸ h2)
      · exact Or.inr ⟨h1.trans h2, lt_trans h1r h2r⟩
  · intro a b hne
    have key : LoadingInfo.lt a b = true ∨ LoadingInfo.lt b a = true := by
      rw [LoadingInfo.lt_iff, LoadingInfo.lt_iff]
      rcases lt_trichotomy a.m_DueDate b.m_DueDate with h | h | h
      · exact Or.inl (Or.inl h)
      · rcases hne with hd | hr
        · exact absurd h hd
        · rcases Nat.lt_or_gt_of_ne hr with h3 | h3
          · exact Or.inl (Or.inr ⟨h, h3⟩)
          · exact Or.inr (Or.inr ⟨h.symm, h3⟩)
      · exact Or.inr (Or.inl h)
    rcases key with h | h
    · exact Or.inl ⟨h, asym a b h⟩
    · exact Or.inr ⟨asym b a h, h⟩

/-- What the index returned by a search with `operator==` is: the position of the
first entry of the probe's resource; and the search fails only when no entry has
that resource. -/
theorem LoadingInfo.IndexOf_spec {T : Type} (queue : List (LoadingInfo T))
    (probe : LoadingInfo T) :
    (LoadingInfo.IndexOf queue probe = none ↔
      ∀ e ∈ queue, e.m_pResource ≠ probe.m_pResource) ∧
    (∀ i : Nat, LoadingInfo.IndexOf queue probe = some i →
      ∃ e : LoadingInfo T, queue[i]? = some e ∧ e.m_pResource = probe.m_pResource ∧
        ∀ (j : Nat) (e2 : LoadingInfo T), j < i → queue[j]? = some e2 →
          e2.m_pResource ≠ probe.m_pResource) := by
  induction queue with
  | nil =>
    constructor
    · simp [LoadingInfo.IndexOf]
    · intro i h
      simp [LoadingInfo.IndexOf] at h
  | cons a rest ih =>
    obtain ⟨ihnone, ihsome⟩ := ih
    unfold LoadingInfo.IndexOf
    by_cases h : a.m_pResource = probe.m_pResource
    · have heq : LoadingInfo.eq a probe = true := by simp [LoadingInfo.eq, h]
      rw [if_pos heq]
      constructor
      · constructor
        · intro hn; cases hn
        · intro hall
          exact absurd h (hall a (by simp))
      · intro i hi
        cases hi
        refine ⟨a, by simp, h, ?_⟩
        intro j e2 hj _
        omega
    · have heq : ¬ LoadingInfo.eq a probe = true := by simp [LoadingInfo.eq, h]
      rw [if_neg heq]
      constructor
      · constructor
        · intro hn
          have hr : LoadingInfo.IndexOf rest probe = none := by
            cases hrest : LoadingInfo.IndexOf rest probe with
            | none => rfl
            | some k => rw [hrest] at hn; cases hn
          intro e he
          simp only [List.mem_cons] at he
          rcases he with he | he
          · subst he; exact h
          · exact ihnone.mp hr e he
        · intro hall
          have hr : LoadingInfo.IndexOf rest probe = none :=
            ihnone.mpr (fun e he => hall e (by simp [he]))
          rw [hr]; rfl
      · intro i hi
        cases hrest : LoadingInfo.IndexOf rest probe with
        | none => rw [hrest] at hi; cases hi
        | some k =>
          rw [hrest] at hi
          simp only [Option.map_some', Option.some.injEq] at hi
          subst hi
          obtain ⟨e, hk, hres, hfirst⟩ := ihsome k hrest
          refine ⟨e, by simpa using hk, hres, ?_⟩
          intro j e2 hj hj2
          cases j with
          | zero =>
            simp only [List.getElem?_cons_zero, Option.some.injEq] at hj2
            subst hj2; exact h
          | succ j2 =>
            simp only [List.getElem?_cons_succ] at hj2
            exact hfirst j2 e2 (by omega) hj2

/-- C3: queue entries are identified by their resource alone: `a == b` holds iff
`a.m_pResource == b.m_pResource`, whatever the two due dates are. Hence a search of
the preload queue with `operator==` for a resource, under any due date in the
probe, returns the index of the first entry of that resource, and fails only when
no entry has it; and in a queue with at most one entry per resource, the search
for the resource of a pending entry returns the index at which that very entry
sits, whatever due date the entry carries. -/
theorem C3_eq_compares_resource_only {T : Type} :
    (∀ a b : LoadingInfo T, LoadingInfo.eq a b = true ↔ a.m_pResource = b.m_pResource) ∧
    (∀ (d1 d2 e1 e2 : T) (r1 r2 : Nat),
      LoadingInfo.eq ⟨d1, r1⟩ ⟨d2, r2⟩ = LoadingInfo.eq ⟨e1, r1⟩ ⟨e2, r2⟩) ∧
    (∀ (queue : List (LoadingInfo T)) (d : T) (r : Nat),
      ((LoadingInfo.IndexOf queue ⟨d, r⟩).isSome = true ↔ ∃ e ∈ queue, e.m_pResource = r) ∧
      (LoadingInfo.IndexOf queue ⟨d, r⟩ = none ↔ ∀ e ∈ queue, e.m_pResource ≠ r) ∧
      (∀ i : Nat, LoadingInfo.IndexOf queue ⟨d, r⟩ = some i →
        ∃ e : LoadingInfo T, queue[i]? = some e ∧ e.m_pResource = r ∧
          ∀ (j : Nat) (e2 : LoadingInfo T), j < i → queue[j]? = some e2 →
            e2.m_pResource ≠ r)) ∧
    (∀ (queue : List (LoadingInfo T)) (entry : LoadingInfo T) (d : T),
      entry ∈ queue → (queue.map (fun e => e.m_pResource)).Nodup →
      ∃ i : Nat, LoadingInfo.IndexOf queue ⟨d, entry.m_pResource⟩ = some i ∧
        queue[i]? = some entry) := by
  refine ⟨?_, ?_, ?_, ?_⟩
  · intro a b
    simp [LoadingInfo.eq]
  · intro d1 d2 e1 e2 r1 r2
    rfl
  · intro queue d r
    exact ⟨LoadingInfo.IndexOf_isSome_iff queue ⟨d, r⟩,
      (LoadingInfo.IndexOf_spec queue ⟨d, r⟩).1, (LoadingInfo.IndexOf_spec queue ⟨d, r⟩).2⟩
  · intro queue entry d hmem hnd
    obtain ⟨hnone, hsome⟩ := LoadingInfo.IndexOf_spec queue ⟨d, entry.m_pResource⟩
    cases hidx : LoadingInfo.IndexOf queue ⟨d, entry.m_pResource⟩ with
    | none =>
      exact absurd rfl ((hnone.mp hidx) entry hmem)
    | some i =>
      obtain ⟨e, hi, hres, _⟩ := hsome i hidx
      refine ⟨i, rfl, ?_⟩
      have he : e ∈ queue := List.getElem?_mem hi
      have hinj := List.inj_on_of_nodup_map hnd he hmem hres
      rw [hi, hinj]

/-- C3 at a concrete input: in a queue of three entries the search for resource 30
under the due date 0 returns index 1, where the entry of resource 30 sits with its
due date 9. -/
theorem C3_eq_compares_resource_only_witness :
    (⟨9, 30⟩ : LoadingInfo Nat) ∈ ([⟨5, 20⟩, ⟨9, 30⟩, ⟨1, 40⟩] : List (LoadingInfo Nat)) ∧
    (([⟨5, 20⟩, ⟨9, 30⟩, ⟨1, 40⟩] : List (LoadingInfo Nat)).map
      (fun e => e.m_pResource)).Nodup ∧
    LoadingInfo.IndexOf ([⟨5, 20⟩, ⟨9, 30⟩, ⟨1, 40⟩] : List (LoadingInfo Nat)) ⟨0, 30⟩
      = some 1 ∧
    ∃ i : Nat,
      LoadingInfo.IndexOf ([⟨5, 20⟩, ⟨9, 30⟩, ⟨1, 40⟩] : List (LoadingInfo Nat)) ⟨0, 30⟩
        = some i ∧
      ([⟨5, 20⟩, ⟨9, 30⟩, ⟨1, 40⟩] : List (LoadingInfo Nat))[i]? = some ⟨9, 30⟩ :=
  ⟨by decide, by decide, by decide,
    (@C3_eq_compares_resource_only Nat).2.2.2
      [⟨5, 20⟩, ⟨9, 30⟩, ⟨1, 40⟩] ⟨9, 30⟩ 0 (by decide) (by decide)⟩


end ezResourceManager

/-! ### `CallCreateResource` -/

/-- C5: in a development build `CallCreateResource` completes without an assertion
failure iff the descriptor returned by `CreateResource` has `m_State != Invalid`,
`m_uiQualityLevelsDiscardable != 0xFF` and `m_uiQualityLevelsLoadable != 0xFF`, and
`UpdateMemoryUsage` overwrote both `m_uiMemoryCPU` and `m_uiMemoryGPU` of the
sentinel-filled structure with values other than `0xFFFFFFFF`; otherwise it fails
with one of the five assertions. -/
theorem C5_CallCreateResource_completes_iff_contract {D : Type} (self : ezResource)
    (CreateResource : D → ezResourceLoadDesc) (UpdateMemoryUsage : MemoryUsage → MemoryUsage)
    (descriptor : D) :
    ((self.CallCreateResource CreateResource UpdateMemoryUsage descriptor).m_Failed = none ↔
      ((CreateResource descriptor).m_State ≠ ezResourceState.Invalid ∧
        (CreateResource descriptor).m_uiQualityLevelsDiscardable ≠ 0xFF ∧
        (CreateResource descriptor).m_uiQualityLevelsLoadable ≠ 0xFF ∧
        (UpdateMemoryUsage ⟨0xFFFFFFFF, 0xFFFFFFFF⟩).m_uiMemoryCPU ≠ 0xFFFFFFFF ∧
        (UpdateMemoryUsage ⟨0xFFFFFFFF, 0xFFFFFFFF⟩).m_uiMemoryGPU ≠ 0xFFFFFFFF)) ∧
    ((self.CallCreateResource CreateResource UpdateMemoryUsage descriptor).m_Failed.isSome = true ↔
      ((CreateResource descriptor).m_State = ezResourceState.Invalid ∨
        (CreateResource descriptor).m_uiQualityLevelsDiscardable = 0xFF ∨
        (CreateResource descriptor).m_uiQualityLevelsLoadable = 0xFF ∨
        (UpdateMemoryUsage ⟨0xFFFFFFFF, 0xFFFFFFFF⟩).m_uiMemoryCPU = 0xFFFFFFFF ∨
        (UpdateMemoryUsage ⟨0xFFFFFFFF, 0xFFFFFFFF⟩).m_uiMemoryGPU = 0xFFFFFFFF)) := by
  unfold ezResource.CallCreateResource
  constructor <;> (simp only []; split_ifs <;> simp_all)


/-- C6: after every `CallCreateResource` that completes, the loading state and the
two quality levels of the resource equal the values returned by `CreateResource`,
`m_MemoryUsage` equals what `UpdateMemoryUsage` filled in, and none of them is at
its unset sentinel (state `Invalid`, quality level `0xFF`, memory `0xFFFFFFFF`). -/
theorem C6_completed_create_stores_returned_values {D : Type} (self : ezResource)
    (CreateResource : D → ezResourceLoadDesc) (UpdateMemoryUsage : MemoryUsage → MemoryUsage)
    (descriptor : D)
    (hdone : (self.CallCreateResource CreateResource UpdateMemoryUsage descriptor).m_Failed
      = none) :
    let after := (self.CallCreateResource CreateResource UpdateMemoryUsage descriptor).m_Resource
    (after.m_LoadingState = (CreateResource descriptor).m_State ∧
      after.m_uiQualityLevelsDiscardable
        = (CreateResource descriptor).m_uiQualityLevelsDiscardable ∧
      after.m_uiQualityLevelsLoadable
        = (CreateResource descriptor).m_uiQualityLevelsLoadable ∧
      after.m_MemoryUsage = UpdateMemoryUsage ⟨0xFFFFFFFF, 0xFFFFFFFF⟩) ∧
    (after.m_LoadingState ≠ ezResourceState.Invalid ∧
      after.m_uiQualityLevelsDiscardable ≠ 0xFF ∧
      after.m_uiQualityLevelsLoadable ≠ 0xFF ∧
      after.m_MemoryUsage.m_uiMemoryCPU ≠ 0xFFFFFFFF ∧
      after.m_MemoryUsage.m_uiMemoryGPU ≠ 0xFFFFFFFF) := by
  unfold ezResource.CallCreateResource at hdone ⊢
  simp only [] at hdone ⊢
  split_ifs at hdone ⊢
  simp_all [ezResource.IncResourceChangeCounter]

/-- C7: the change counter never decreases across `CallCreateResource`; a call
whose create step satisfies the contract (valid state, both quality levels other
than `0xFF`) leaves the counter at exactly its old value plus one, and a call whose
create step returns `Invalid` or a `0xFF` quality level leaves it unchanged. -/
theorem C7_change_counter_counts_creates {D : Type} (self : ezResource)
    (CreateResource : D → ezResourceLoadDesc) (UpdateMemoryUsage : MemoryUsage → MemoryUsage)
    (descriptor : D) :
    let after := (self.CallCreateResource CreateResource UpdateMemoryUsage descriptor).m_Resource
    (self.m_uiResourceChangeCounter ≤ after.m_uiResourceChangeCounter) ∧
    (((CreateResource descriptor).m_State ≠ ezResourceState.Invalid ∧
        (CreateResource descriptor).m_uiQualityLevelsDiscardable ≠ 0xFF ∧
        (CreateResource descriptor).m_uiQualityLevelsLoadable ≠ 0xFF) →
      after.m_uiResourceChangeCounter = self.m_uiResourceChangeCounter + 1) ∧
    (((CreateResource descriptor).m_State = ezResourceState.Invalid ∨
        (CreateResource descriptor).m_uiQualityLevelsDiscardable = 0xFF ∨
        (CreateResource descriptor).m_uiQualityLevelsLoadable = 0xFF) →
      after.m_uiResourceChangeCounter = self.m_uiResourceChangeCounter) := by
  unfold ezResource.CallCreateResource
  simp only []
  split_ifs <;> simp_all [ezResource.IncResourceChangeCounter]

/-- C8: every completed `CallCreateResource` makes exactly one broadcast, of type
`ResourceContentUpdated` with `m_pResource` the created resource, and at the moment
of that broadcast the object already is in its final state: loading state, quality
levels, change counter and memory usage have all been updated. -/
theorem C8_completed_create_broadcasts_once_after_update {D : Type} (self : ezResource)
    (CreateResource : D → ezResourceLoadDesc) (UpdateMemoryUsage : MemoryUsage → MemoryUsage)
    (descriptor : D)
    (hdone : (self.CallCreateResource CreateResource UpdateMemoryUsage descriptor).m_Failed
      = none) :
    let run := self.CallCreateResource CreateResource UpdateMemoryUsage descriptor
    ∃ seen : ezResource,
      run.m_Broadcasts =
        [(⟨self.m_pThis, ezResourceEventType.ResourceContentUpdated⟩, seen)] ∧
      seen = run.m_Resource ∧
      seen.m_pThis = self.m_pThis ∧
      seen.m_LoadingState = (CreateResource descriptor).m_State ∧
      seen.m_uiQualityLevelsDiscardable
        = (CreateResource descriptor).m_uiQualityLevelsDiscardable ∧
      seen.m_uiQualityLevelsLoadable
        = (CreateResource descriptor).m_uiQualityLevelsLoadable ∧
      seen.m_uiResourceChangeCounter
        = self.IncResourceChangeCounter.m_uiResourceChangeCounter ∧
      seen.m_MemoryUsage = UpdateMemoryUsage ⟨0xFFFFFFFF, 0xFFFFFFFF⟩ := by
  unfold ezResource.CallCreateResource at hdone ⊢
  simp only [] at hdone ⊢
  split_ifs at hdone ⊢
  simp_all [ezResource.IncResourceChangeCounter]

/-! ### `ezResourceLock` -/

/-- One scope appends the `BeginAcquireResource` call and, exactly when that call
returned a resource, one `EndAcquireResource` call on the returned pointer. -/
theorem ezResourceLock.scope_eq (B : BeginAcquire) (log : List AcquireCall) (args : LockArgs) :
    ezResourceLock.scope B log args =
      log ++ AcquireCall.Begin args.hResource args.mode args.hFallbackResource args.Priority
          (B log args).1 ::
        (if (B log args).1 ≠ 0 then [AcquireCall.End (B log args).1] else []) := by
  unfold ezResourceLock.scope ezResourceLock.dtor ezResourceLock.ctor
  by_cases h : (B log args).1 = 0 <;> simp [h]

/-- Counting the three kinds of calls over a sequence of scopes. -/
theorem ezResourceLock.runScopes_counts (B : BeginAcquire) (scopes : List LockArgs) :
    ∀ log : List AcquireCall,
      (ezResourceLock.runScopes B scopes log).countP AcquireCall.isBegin
          = log.countP AcquireCall.isBegin + scopes.length ∧
      (ezResourceLock.runScopes B scopes log).countP AcquireCall.isEnd
          + log.countP AcquireCall.isAcquired
        = (ezResourceLock.runScopes B scopes log).countP AcquireCall.isAcquired
          + log.countP AcquireCall.isEnd := by
  induction scopes with
  | nil => intro log; simp [ezResourceLock.runScopes, Nat.add_comm]
  | cons args rest ih =>
    intro log
    have h := ih (ezResourceLock.scope B log args)
    unfold ezResourceLock.runScopes
    rw [ezResourceLock.scope_eq] at h ⊢
    by_cases hp : (B log args).1 = 0
    · simp [hp, List.countP_append, List.countP_cons, AcquireCall.isBegin,
        AcquireCall.isAcquired, AcquireCall.isEnd] at h ⊢
      omega
    · simp [hp, List.countP_append, List.countP_cons, AcquireCall.isBegin,
        AcquireCall.isAcquired, AcquireCall.isEnd] at h ⊢
      omega

/-- C9: acquire and release are paired by `ezResourceLock`: the constructor makes
exactly one `BeginAcquireResource` call and keeps the returned pointer; the
destructor makes exactly one `EndAcquireResource` call on that pointer when it is
non-null and none when it is null; the `bool` conversion is true iff a resource was
acquired; and over any sequence of lock scopes there is one `BeginAcquireResource`
call per scope and exactly as many `EndAcquireResource` calls as there are scopes
that acquired a resource. -/
theorem C9_lock_pairs_acquire_and_release (B : BeginAcquire) :
    (∀ (log : List AcquireCall) (args : LockArgs),
      (ezResourceLock.ctor B log args).2 =
          log ++ [AcquireCall.Begin args.hResource args.mode args.hFallbackResource
            args.Priority (B log args).1] ∧
        (ezResourceLock.ctor B log args).1.m_pResource = (B log args).1) ∧
    (∀ (lock : ezResourceLock) (log : List AcquireCall),
      (lock.m_pResource ≠ 0 → lock.dtor log = log ++ [AcquireCall.End lock.m_pResource]) ∧
        (lock.m_pResource = 0 → lock.dtor log = log)) ∧
    (∀ lock : ezResourceLock, lock.toBool = true ↔ lock.m_pResource ≠ 0) ∧
    (∀ scopes : List LockArgs,
      (ezResourceLock.runScopes B scopes []).countP AcquireCall.isBegin = scopes.length ∧
        (ezResourceLock.runScopes B scopes []).countP AcquireCall.isEnd
          = (ezResourceLock.runScopes B scopes []).countP AcquireCall.isAcquired) := by
  refine ⟨?_, ?_, ?_, ?_⟩
  · intro log args
    exact ⟨rfl, rfl⟩
  · intro lock log
    constructor
    · intro h; simp [ezResourceLock.dtor, h]
    · intro h; simp [ezResourceLock.dtor, h]
  · intro lock
    simp [ezResourceLock.toBool]
  · intro scopes
    have h := ezResourceLock.runScopes_counts B scopes []
    simpa using h

/-! ### `SetFallbackResource` -/

/-- On a single-bit flag, `IsSet` reads that bit. -/
theorem ezBitflags.IsSet_two_pow (value k : Nat) :
    ezBitflags.IsSet value (2 ^ k) = value.testBit k := by
  unfold ezBitflags.IsSet
  have h : value &&& 2 ^ k = if value.testBit k then 2 ^ k else 0 := by
    apply Nat.eq_of_testBit_eq
    intro i
    by_cases hb : value.testBit k
    · by_cases hi : k = i
      · subst hi; simp [hb, Nat.testBit_two_pow]
      · simp [hb, Nat.testBit_two_pow, hi]
    · by_cases hi : k = i
      · subst hi; simp [hb, Nat.testBit_two_pow]
      · simp [hb, Nat.testBit_two_pow, hi]
  rw [h]
  by_cases hb : value.testBit k
  · simp [hb]
  · have : (0 : Nat) ≠ 2 ^ k := (Nat.pos_of_ne_zero (by positivity)).ne
    simp [hb, this]

/-- The bits of the value `AddOrRemove` leaves behind, for a single-bit flag. -/
theorem ezBitflags.testBit_AddOrRemove (w value k : Nat) (state : Bool) (j : Nat)
    (hk : k < w) (hv : value < 2 ^ w) :
    (ezBitflags.AddOrRemove w value (2 ^ k) state).testBit j =
      if j = k then state else value.testBit j := by
  unfold ezBitflags.AddOrRemove
  cases state with
  | true =>
    by_cases hj : j = k
    · subst hj; simp [Nat.testBit_two_pow]
    · have : ¬ k = j := fun h => hj h.symm
      simp [Nat.testBit_two_pow, hj, this]
  | false =>
    by_cases hj : j = k
    · subst hj; simp [Nat.testBit_two_pow, hk]
    · have hkj : ¬ k = j := fun h => hj h.symm
      by_cases hjw : j < w
      · simp [Nat.testBit_two_pow, hj, hkj, hjw]
      · have hz : value.testBit j = false :=
          Nat.testBit_lt_two_pow (lt_of_lt_of_le hv (Nat.pow_le_pow_right (by decide)
            (Nat.le_of_not_lt hjw)))
        simp [hj, hz]

/-- C10: `SetFallbackResource(h)` stores `h` as the fallback handle of the
instance, leaves the flag `ResourceHasFallback` set iff `h` is a valid handle, and
leaves every other flag bit and every other member unchanged (the flag is bit `k`
of a `w`-bit flags value). -/
theorem C10_SetFallbackResource_flag_iff_valid (w k : Nat) (self : ezResource)
    (h : ezTypedResourceHandle) (hk : k < w) (hflags : self.m_Flags < 2 ^ w) :
    (self.SetFallbackResource w k h).m_hFallback = h ∧
    ezBitflags.IsSet (self.SetFallbackResource w k h).m_Flags (2 ^ k) = h.IsValid ∧
    (∀ j : Nat, j ≠ k →
      (self.SetFallbackResource w k h).m_Flags.testBit j = self.m_Flags.testBit j) ∧
    { self.SetFallbackResource w k h with
        m_Flags := self.m_Flags, m_hFallback := self.m_hFallback } = self := by
  refine ⟨rfl, ?_, ?_, rfl⟩
  · rw [ezBitflags.IsSet_two_pow]
    unfold ezResource.SetFallbackResource
    simp only []
    rw [ezBitflags.testBit_AddOrRemove w _ k _ k hk hflags]
    simp
  · intro j hj
    unfold ezResource.SetFallbackResource
    simp only []
    rw [ezBitflags.testBit_AddOrRemove w _ k _ j hk hflags]
    simp [hj]

/-! ### The registry -/

/-- A value found by a lookup is stored in the table. -/
theorem Registry.TryGetValue_mem {K V : Type} [DecidableEq K] (table : List (K × V)) (key : K)
    (v : V) (h : Registry.TryGetValue table key = some v) : v ∈ table.map Prod.snd := by
  induction table with
  | nil => simp [Registry.TryGetValue] at h
  | cons e rest ih =>
    obtain ⟨k, v0⟩ := e
    unfold Registry.TryGetValue at h
    by_cases hk : k = key
    · simp [hk] at h; simp [h]
    · simp [hk] at h; simp [ih h]

/-- In a table without repeated values, a value is found under one key only. -/
theorem Registry.TryGetValue_inj {K V : Type} [DecidableEq K] (table : List (K × V))
    (hnd : (table.map Prod.snd).Nodup) (k1 k2 : K) (v : V)
    (h1 : Registry.TryGetValue table k1 = some v)
    (h2 : Registry.TryGetValue table k2 = some v) : k1 = k2 := by
  induction table with
  | nil => simp [Registry.TryGetValue] at h1
  | cons e rest ih =>
    obtain ⟨k, v0⟩ := e
    simp only [List.map_cons, List.nodup_cons] at hnd
    unfold Registry.TryGetValue at h1 h2
    by_cases hk1 : k = k1
    · by_cases hk2 : k = k2
      · exact hk1.symm.trans hk2
      · simp [hk1] at h1
        simp [hk2] at h2
        exact absurd (Registry.TryGetValue_mem rest k2 v h2) (h1 ▸ hnd.1)
    · by_cases hk2 : k = k2
      · simp [hk1] at h1
        simp [hk2] at h2
        exact absurd (Registry.TryGetValue_mem rest k1 v h1) (h2 ▸ hnd.1)
      · simp [hk1] at h1
        simp [hk2] at h2
        exact ih hnd.2 h1 h2

/-- Every instance in the table lies below the fresh address. -/
theorem Registry.lt_freshAddress (table : List ((Nat × String) × Nat)) (v : Nat)
    (h : v ∈ table.map Prod.snd) : v < Registry.freshAddress table := by
  unfold Registry.freshAddress
  have key : ∀ l : List Nat, v ∈ l → v ≤ l.foldr max 0 := by
    intro l
    induction l with
    | nil => intro hv; simp at hv
    | cons a rest ih =>
      intro hv
      simp only [List.mem_cons] at hv
      simp only [List.foldr_cons]
      rcases hv with hv | hv
      · subst hv; exact le_max_left _ _
      · exact le_trans (ih hv) (le_max_right _ _)
  exact Nat.lt_succ_of_le (key _ h)

/-- `LoadResource` changes neither the alias table nor the override table, so the
key of a request is the same before and after it. -/
theorem Registry.resourceKey_LoadResource (reg : Registry)
    (pRtti : Nat) (A : String) (pRtti2 : Nat) (B : String) :
    Registry.resourceKey (Registry.LoadResource reg pRtti A).1 pRtti2 B =
      Registry.resourceKey reg pRtti2 B := by
  unfold Registry.LoadResource
  simp only []
  split <;> rfl

/-- `LoadResource` keeps the instance table free of repeated instances. -/
theorem Registry.WellFormed_LoadResource (reg : Registry)
    (hwf : reg.WellFormed) (pRtti : Nat) (A : String) :
    (Registry.LoadResource reg pRtti A).1.WellFormed := by
  unfold Registry.LoadResource
  simp only []
  split
  · exact hwf
  · unfold Registry.WellFormed at hwf ⊢
    simp only [List.map_cons, List.nodup_cons]
    refine ⟨fun hmem => ?_, hwf⟩
    exact absurd (Registry.lt_freshAddress _ _ hmem) (lt_irrefl _)

/-- Two consecutive loads yield the same instance iff their keys agree. -/
theorem Registry.sameInstance_iff_key (reg : Registry)
    (hwf : reg.WellFormed) (pRtti : Nat) (A B : String) :
    Registry.sameInstance reg pRtti A B ↔
      Registry.resourceKey reg pRtti A = Registry.resourceKey reg pRtti B := by
  unfold Registry.sameInstance
  have hkB := Registry.resourceKey_LoadResource reg pRtti A pRtti B
  generalize hA : Registry.resourceKey reg pRtti A = kA
  generalize hB : Registry.resourceKey reg pRtti B = kB at hkB
  unfold Registry.WellFormed at hwf
  cases hlA : Registry.TryGetValue reg.s_LoadedResources kA with
  | some iA =>
    have e1 : Registry.LoadResource reg pRtti A = (reg, ⟨iA⟩) := by
      simp [Registry.LoadResource, hA, hlA]
    rw [e1]
    cases hlB : Registry.TryGetValue reg.s_LoadedResources kB with
    | some iB =>
      have e2 : Registry.LoadResource reg pRtti B = (reg, ⟨iB⟩) := by
        simp [Registry.LoadResource, hB, hlB]
      rw [e2]
      constructor
      · intro h
        have hi : iA = iB := by simpa using h
        subst hi
        exact Registry.TryGetValue_inj _ hwf kA kB iA hlA hlB
      · intro h
        subst h
        rw [hlA] at hlB
        simpa using hlB
    | none =>
      have e2 : (Registry.LoadResource reg pRtti B).2 =
          ⟨Registry.freshAddress reg.s_LoadedResources⟩ := by
        simp [Registry.LoadResource, hB, hlB]
      rw [e2]
      constructor
      · intro h
        have hi : iA = Registry.freshAddress reg.s_LoadedResources := by simpa using h
        have hlt := Registry.lt_freshAddress _ _ (Registry.TryGetValue_mem _ _ _ hlA)
        omega
      · intro h
        subst h
        rw [hlA] at hlB
        simp at hlB
  | none =>
    have e1 : Registry.LoadResource reg pRtti A =
        ({ reg with s_LoadedResources :=
            (kA, Registry.freshAddress reg.s_LoadedResources) :: reg.s_LoadedResources },
          ⟨Registry.freshAddress reg.s_LoadedResources⟩) := by
      simp [Registry.LoadResource, hA, hlA]
    rw [e1] at hkB ⊢
    simp only []
    by_cases hk : kA = kB
    · subst hk
      have e2 : (Registry.LoadResource
          { reg with s_LoadedResources :=
            (kA, Registry.freshAddress reg.s_LoadedResources) :: reg.s_LoadedResources }
          pRtti B).2 = ⟨Registry.freshAddress reg.s_LoadedResources⟩ := by
        simp [Registry.LoadResource, hkB, Registry.TryGetValue]
      rw [e2]
      simp
    · cases hlB : Registry.TryGetValue reg.s_LoadedResources kB with
      | some iB =>
        have e2 : (Registry.LoadResource
            { reg with s_LoadedResources :=
              (kA, Registry.freshAddress reg.s_LoadedResources) :: reg.s_LoadedResources }
            pRtti B).2 = ⟨iB⟩ := by
          simp [Registry.LoadResource, hkB, Registry.TryGetValue, hk, hlB]
        rw [e2]
        have hlt := Registry.lt_freshAddress _ _ (Registry.TryGetValue_mem _ _ _ hlB)
        constructor
        · intro h
          have hi : Registry.freshAddress reg.s_LoadedResources = iB := by simpa using h
          omega
        · intro h; exact absurd h hk
      | none =>
        have e2 : (Registry.LoadResource
            { reg with s_LoadedResources :=
              (kA, Registry.freshAddress reg.s_LoadedResources) :: reg.s_LoadedResources }
            pRtti B).2 = ⟨Registry.freshAddress
              ((kA, Registry.freshAddress reg.s_LoadedResources) :: reg.s_LoadedResources)⟩ := by
          simp [Registry.LoadResource, hkB, Registry.TryGetValue, hk, hlB]
        rw [e2]
        have hlt := Registry.lt_freshAddress
          ((kA, Registry.freshAddress reg.s_LoadedResources) :: reg.s_LoadedResources)
          (Registry.freshAddress reg.s_LoadedResources) (by simp)
        constructor
        · intro h
          have hi : Registry.freshAddress reg.s_LoadedResources = Registry.freshAddress
              ((kA, Registry.freshAddress reg.s_LoadedResources) :: reg.s_LoadedResources) := by
            simpa using h
          omega
        · intro h; exact absurd h hk

/-- C4 (as stated, refuted): with the name `MenuBackground` registered as a
redirection to `Textures/Menu.tex`, these two distinct ID strings yield handles to
the same resource instance, for every resource type. -/
theorem C4_counterexample_named_resource :
    "MenuBackground" ≠ "Textures/Menu.tex" ∧
    (Registry.RegisterNamedResource Registry.empty
      "MenuBackground" "Textures/Menu.tex").WellFormed ∧
    ∀ pRtti : Nat,
      Registry.sameInstance
        (Registry.RegisterNamedResource Registry.empty "MenuBackground" "Textures/Menu.tex")
        pRtti "MenuBackground" "Textures/Menu.tex" := by
  have hwf : (Registry.RegisterNamedResource Registry.empty
      "MenuBackground" "Textures/Menu.tex").WellFormed := by
    simp [Registry.WellFormed, Registry.RegisterNamedResource, Registry.empty]
  refine ⟨by decide, hwf, ?_⟩
  intro pRtti
  rw [Registry.sameInstance_iff_key _ hwf]
  simp [Registry.resourceKey, Registry.resolveNamedResource, Registry.RegisterNamedResource,
    Registry.empty, Registry.TryGetValue, Registry.FindResourceTypeOverride]

/-- C4 (amended): on a registry whose instance table holds no instance twice,
`LoadResource(A)` and `LoadResource(B)` for one resource type return handles to the
same instance iff `A` and `B` are the same string after named-resource redirection.
In particular the same ID string always yields one instance, and two ID strings
neither of which is a registered name share an instance iff they are the same
string. -/
theorem C4_same_instance_iff_same_redirected_id (reg : Registry)
    (hwf : reg.WellFormed) (pRtti : Nat) (A B : String) :
    (Registry.sameInstance reg pRtti A B ↔
      Registry.resolveNamedResource reg A = Registry.resolveNamedResource reg B) ∧
    Registry.sameInstance reg pRtti A A ∧
    (Registry.TryGetValue reg.s_NamedResources A = none →
      Registry.TryGetValue reg.s_NamedResources B = none →
      (Registry.sameInstance reg pRtti A B ↔ A = B)) := by
  have hkey : Registry.sameInstance reg pRtti A B ↔
      Registry.resolveNamedResource reg A = Registry.resolveNamedResource reg B := by
    rw [Registry.sameInstance_iff_key reg hwf pRtti A B]
    unfold Registry.resourceKey
    constructor
    · intro h
      simp only [Prod.mk.injEq] at h
      exact h.2
    · intro h
      simp only [h]
  refine ⟨hkey, ?_, ?_⟩
  · exact (Registry.sameInstance_iff_key reg hwf pRtti A A).mpr rfl
  · intro hA hB
    rw [hkey]
    unfold Registry.resolveNamedResource
    rw [hA, hB]

/-- C4 at a concrete registry: after the redirection of `MenuBackground`, the
strings `Textures/Wood.tex` and `Textures/Menu.tex`, neither a registered name,
load distinct instances, while `Textures/Wood.tex` loads one instance. -/
theorem C4_same_instance_iff_same_redirected_id_witness :
    exampleRegistry.WellFormed ∧
    Registry.sameInstance exampleRegistry 1 "Textures/Wood.tex" "Textures/Wood.tex" ∧
    ¬ Registry.sameInstance exampleRegistry 1 "Textures/Wood.tex" "Textures/Menu.tex" :=
  ⟨by decide,
    (C4_same_instance_iff_same_redirected_id exampleRegistry (by decide) 1
      "Textures/Wood.tex" "Textures/Wood.tex").2.1,
    fun h =>
      absurd
        (((C4_same_instance_iff_same_redirected_id exampleRegistry (by decide) 1
          "Textures/Wood.tex" "Textures/Menu.tex").2.2 (by decide) (by decide)).mp h)
        (by decide)⟩

/-! ### Concrete runs -/

/-- C6 at a concrete input: the example create step completes, and the resource
then holds state `Loaded`, quality levels 0 and 1 and the memory totals 128 and 0. -/
theorem C6_completed_create_stores_returned_values_witness :
    (exampleResource.CallCreateResource exampleCreateResource exampleUpdateMemoryUsage ()).m_Failed
      = none ∧
    (exampleResource.CallCreateResource exampleCreateResource
        exampleUpdateMemoryUsage ()).m_Resource.m_LoadingState
      = (exampleCreateResource ()).m_State ∧
    (exampleResource.CallCreateResource exampleCreateResource
        exampleUpdateMemoryUsage ()).m_Resource.m_MemoryUsage.m_uiMemoryCPU ≠ 0xFFFFFFFF :=
  ⟨by decide,
    (C6_completed_create_stores_returned_values exampleResource exampleCreateResource
      exampleUpdateMemoryUsage () (by decide)).1.1,
    (C6_completed_create_stores_returned_values exampleResource exampleCreateResource
      exampleUpdateMemoryUsage () (by decide)).2.2.2.2.1⟩

/-- C7 at concrete inputs: the example create step moves the counter from 7 to 8,
and the create step returning `Invalid` leaves it at 7. -/
theorem C7_change_counter_counts_creates_witness :
    (exampleResource.CallCreateResource exampleCreateResource
        exampleUpdateMemoryUsage ()).m_Resource.m_uiResourceChangeCounter
      = exampleResource.m_uiResourceChangeCounter + 1 ∧
    (exampleResource.CallCreateResource exampleCreateInvalid
        exampleUpdateMemoryUsage ()).m_Resource.m_uiResourceChangeCounter
      = exampleResource.m_uiResourceChangeCounter :=
  ⟨(C7_change_counter_counts_creates exampleResource exampleCreateResource
      exampleUpdateMemoryUsage ()).2.1 (by decide),
    (C7_change_counter_counts_creates exampleResource exampleCreateInvalid
      exampleUpdateMemoryUsage ()).2.2 (Or.inl rfl)⟩

/-- C8 at a concrete input: the example create step completes and its run holds
exactly one broadcast, seen with the object in its final state. -/
theorem C8_completed_create_broadcasts_once_after_update_witness :
    (exampleResource.CallCreateResource exampleCreateResource exampleUpdateMemoryUsage ()).m_Failed
      = none ∧
    ∃ seen : ezResource,
      (exampleResource.CallCreateResource exampleCreateResource
          exampleUpdateMemoryUsage ()).m_Broadcasts
        = [(⟨4096, ezResourceEventType.ResourceContentUpdated⟩, seen)] ∧
      seen.m_LoadingState = ezResourceState.Loaded :=
  ⟨by decide,
    (C8_completed_create_broadcasts_once_after_update exampleResource exampleCreateResource
      exampleUpdateMemoryUsage () (by decide)).imp
      (fun _ h => ⟨h.1, h.2.2.2.1⟩)⟩

/-- C9 at a concrete input: over the three example scopes there are three
`BeginAcquireResource` calls and as many `EndAcquireResource` calls as acquisitions,
namely two. -/
theorem C9_lock_pairs_acquire_and_release_witness :
    (ezResourceLock.runScopes exampleBeginAcquire exampleScopes []).countP AcquireCall.isBegin
      = 3 ∧
    (ezResourceLock.runScopes exampleBeginAcquire exampleScopes []).countP AcquireCall.isEnd
      = (ezResourceLock.runScopes exampleBeginAcquire exampleScopes []).countP
          AcquireCall.isAcquired ∧
    (ezResourceLock.runScopes exampleBeginAcquire exampleScopes []).countP AcquireCall.isEnd
      = 2 :=
  ⟨((C9_lock_pairs_acquire_and_release exampleBeginAcquire).2.2.2 exampleScopes).1,
    ((C9_lock_pairs_acquire_and_release exampleBeginAcquire).2.2.2 exampleScopes).2,
    by decide⟩

/-- C10 at concrete inputs: on a 16-bit flags value 17 with the flag at bit 2, a
valid handle sets the flag and an invalid handle leaves it cleared, bit 4 staying
set in both cases. -/
theorem C10_SetFallbackResource_flag_iff_valid_witness :
    (2 < 16 ∧ exampleResource.m_Flags < 2 ^ 16) ∧
    ezBitflags.IsSet (exampleResource.SetFallbackResource 16 2 ⟨8192⟩).m_Flags (2 ^ 2) = true ∧
    ezBitflags.IsSet (exampleResource.SetFallbackResource 16 2 ⟨0⟩).m_Flags (2 ^ 2) = false ∧
    (exampleResource.SetFallbackResource 16 2 ⟨8192⟩).m_Flags.testBit 4
      = exampleResource.m_Flags.testBit 4 :=
  ⟨by decide,
    (C10_SetFallbackResource_flag_iff_valid 16 2 exampleResource ⟨8192⟩
      (by decide) (by decide)).2.1,
    (C10_SetFallbackResource_flag_iff_valid 16 2 exampleResource ⟨0⟩
      (by decide) (by decide)).2.1,
    (C10_SetFallbackResource_flag_iff_valid 16 2 exampleResource ⟨8192⟩
      (by decide) (by decide)).2.2.1 4 (by decide)⟩

/-! ### Per-type fallbacks and worker pools -/

/-- C11: the per-type loading and missing fallback slots are independent get/set
cells: after `SetResourceTypeLoadingFallback(h)` the loading getter returns `h` and
the missing fallback is unchanged; after `SetResourceTypeMissingFallback(h)` the
missing getter returns `h` and the loading fallback is unchanged; when a slot is
set twice, the last value set wins. -/
theorem C11_type_fallback_slots_independent (env : FallbackEnv) (self : TypeFallbacks)
    (h h2 : ezTypedResourceHandle) :
    ((self.SetResourceTypeLoadingFallback env h).GetResourceTypeLoadingFallback = h ∧
      (self.SetResourceTypeLoadingFallback env h).GetResourceTypeMissingFallback
        = self.GetResourceTypeMissingFallback) ∧
    ((self.SetResourceTypeMissingFallback env h).GetResourceTypeMissingFallback = h ∧
      (self.SetResourceTypeMissingFallback env h).GetResourceTypeLoadingFallback
        = self.GetResourceTypeLoadingFallback) ∧
    (((self.SetResourceTypeLoadingFallback env h).SetResourceTypeLoadingFallback
        env h2).GetResourceTypeLoadingFallback = h2 ∧
      ((self.SetResourceTypeMissingFallback env h).SetResourceTypeMissingFallback
        env h2).GetResourceTypeMissingFallback = h2 ∧
      ((self.SetResourceTypeLoadingFallback env h).SetResourceTypeMissingFallback
        env h2).GetResourceTypeLoadingFallback = h ∧
      ((self.SetResourceTypeMissingFallback env h).SetResourceTypeLoadingFallback
        env h2).GetResourceTypeMissingFallback = h) := by
  simp only [TypeFallbacks.SetResourceTypeLoadingFallback,
    TypeFallbacks.SetResourceTypeMissingFallback,
    TypeFallbacks.GetResourceTypeLoadingFallback, TypeFallbacks.GetResourceTypeMissingFallback,
    TypeFallbacks.SELF_SetResourceTypeLoadingFallback,
    TypeFallbacks.SELF_SetResourceTypeMissingFallback,
    TypeFallbacks.SELF_GetResourceTypeLoadingFallback,
    TypeFallbacks.SELF_GetResourceTypeMissingFallback,
    TypeFallbacks.EZ_RESOURCE_VALIDATE_FALLBACK]
  by_cases hv : h.IsValid = true <;> by_cases hv2 : h2.IsValid = true <;> simp [hv, hv2]

/-- C12: the two worker pools have fixed capacities, `MaxDiskReadTasks = 2` slots
for disk reads and `MaxMainThreadTasks = 16` slots for the main thread; they are
separate arrays, so an assignment to a slot of one pool leaves the other pool as it
was; and every slot index of either pool is a value of the `ezUInt8` cursors. -/
theorem C12_worker_pools_fixed_capacity {DiskReadTask MainThreadTask : Type} :
    ezResourceManager.MaxDiskReadTasks = 2 ∧
    ezResourceManager.MaxMainThreadTasks = 16 ∧
    (∀ (pools : ezResourceManager.WorkerPools DiskReadTask MainThreadTask)
      (i : Fin ezResourceManager.MaxDiskReadTasks) (task : DiskReadTask),
      (pools.setDiskRead i task).m_WorkerTasksMainThread = pools.m_WorkerTasksMainThread ∧
        (pools.setDiskRead i task).m_WorkerTasksDiskRead i = task) ∧
    (∀ (pools : ezResourceManager.WorkerPools DiskReadTask MainThreadTask)
      (i : Fin ezResourceManager.MaxMainThreadTasks) (task : MainThreadTask),
      (pools.setMainThread i task).m_WorkerTasksDiskRead = pools.m_WorkerTasksDiskRead ∧
        (pools.setMainThread i task).m_WorkerTasksMainThread i = task) ∧
    (∀ i : Nat, i < ezResourceManager.MaxDiskReadTasks → i < ezResourceManager.ezUInt8Range) ∧
    (∀ i : Nat, i < ezResourceManager.MaxMainThreadTasks → i < ezResourceManager.ezUInt8Range) := by
  refine ⟨rfl, rfl, ?_, ?_, ?_, ?_⟩
  · intro pools i task
    exact ⟨rfl, by simp [ezResourceManager.WorkerPools.setDiskRead]⟩
  · intro pools i task
    exact ⟨rfl, by simp [ezResourceManager.WorkerPools.setMainThread]⟩
  · intro i hi
    unfold ezResourceManager.MaxDiskReadTasks at hi
    unfold ezResourceManager.ezUInt8Range
    omega
  · intro i hi
    unfold ezResourceManager.MaxMainThreadTasks at hi
    unfold ezResourceManager.ezUInt8Range
    omega

/-! ### The game grid -/

/-- A natural number below `2 ^ 31` is its own value as an `int`. -/
theorem toInt32_natCast (n : Nat) (h : n < 2 ^ 31) : toInt32 (n : Int) = (n : Int) := by
  unfold toInt32
  omega

/-- A sum `p + a` below `2 ^ 32`, computed in `int` from an `int` product `p` that
may have wrapped around, is exact once it is read back as `ezUInt32`. -/
theorem toUInt32_wrap_add (p a : Nat) (h : p + a < 2 ^ 32) :
    toUInt32 (toInt32 (toInt32 (p : Int) + (a : Int))) = p + a := by
  unfold toUInt32 toInt32
  omega

/-- On a grid whose sizes are 16-bit values the product of the sizes, computed
modulo `2 ^ 32`, is the exact product. -/
theorem ezGameGrid.GetNumCellsModulo32_eq (self : ezGameGrid)
    (hx : self.m_uiGridSizeX < 2 ^ 16) (hy : self.m_uiGridSizeY < 2 ^ 16) :
    self.GetNumCellsModulo32 = self.m_uiGridSizeX * self.m_uiGridSizeY := by
  unfold ezGameGrid.GetNumCellsModulo32 toUInt32 toInt32
  have hp : self.m_uiGridSizeX * self.m_uiGridSizeY ≤ 65535 * 65535 :=
    Nat.mul_le_mul (by omega) (by omega)
  have hc : ((self.m_uiGridSizeX : Int) * (self.m_uiGridSizeY : Int))
      = ((self.m_uiGridSizeX * self.m_uiGridSizeY : Nat) : Int) := by push_cast; rfl
  rw [hc]
  generalize self.m_uiGridSizeX * self.m_uiGridSizeY = p at hp
  omega

/-- What `GetNumCells` returns: the exact product when the product is below
`2 ^ 31`, and nothing when the `int` multiplication overflows. -/
theorem ezGameGrid.GetNumCells_eq (self : ezGameGrid) :
    self.GetNumCells =
      if self.m_uiGridSizeX * self.m_uiGridSizeY < 2 ^ 31 then
        some (self.m_uiGridSizeX * self.m_uiGridSizeY)
      else none := by
  unfold ezGameGrid.GetNumCells mulInt32
  have hc : ((self.m_uiGridSizeX : Int) * (self.m_uiGridSizeY : Int))
      = ((self.m_uiGridSizeX * self.m_uiGridSizeY : Nat) : Int) := by push_cast; rfl
  rw [hc]
  generalize self.m_uiGridSizeX * self.m_uiGridSizeY = p
  by_cases hp : p < 2 ^ 31
  · have h1 : -(2 ^ 31 : Int) ≤ (p : Int) ∧ (p : Int) < 2 ^ 31 := by omega
    rw [if_pos h1, if_pos hp]
    simp only [Option.map_some', Option.some.injEq]
    unfold toUInt32
    omega
  · have h1 : ¬ (-(2 ^ 31 : Int) ≤ (p : Int) ∧ (p : Int) < 2 ^ 31) := by omega
    rw [if_neg h1, if_neg hp]
    rfl

/-- C16 (the code at failing inputs): on the largest grid, 65535 x 65535, and
already on the grid 46341 x 46341, the `int` product in `GetNumCells` overflows
and the call has no defined result, where the numbers of cells are 4294836225
and 2147488281, both below `2 ^ 32`; the grid 46340 x 46340 is the largest square
grid on which it returns the number of cells. In general `GetNumCells` returns the exact
product exactly when that product is below `2 ^ 31`. -/
theorem C16_GetNumCells_overflows_on_large_grids :
    (⟨65535, 65535⟩ : ezGameGrid).GetNumCells = none ∧
    (⟨46341, 46341⟩ : ezGameGrid).GetNumCells = none ∧
    (⟨46340, 46340⟩ : ezGameGrid).GetNumCells = some (46340 * 46340) ∧
    (65535 * 65535 < 2 ^ 32 ∧ ¬ 65535 * 65535 < 2 ^ 31) ∧
    (∀ self : ezGameGrid,
      (self.GetNumCells = some (self.m_uiGridSizeX * self.m_uiGridSizeY) ↔
        self.m_uiGridSizeX * self.m_uiGridSizeY < 2 ^ 31) ∧
      (self.GetNumCells = none ↔ 2 ^ 31 ≤ self.m_uiGridSizeX * self.m_uiGridSizeY)) := by
  refine ⟨?_, ?_, ?_, ⟨by decide, by decide⟩, ?_⟩
  · rw [ezGameGrid.GetNumCells_eq]; decide
  · rw [ezGameGrid.GetNumCells_eq]; decide
  · rw [ezGameGrid.GetNumCells_eq]; decide
  · intro self
    rw [ezGameGrid.GetNumCells_eq]
    by_cases hp : self.m_uiGridSizeX * self.m_uiGridSizeY < 2 ^ 31
    · rw [if_pos hp]
      exact ⟨⟨fun _ => hp, fun _ => rfl⟩, ⟨fun h => (by cases h), fun h => (by omega)⟩⟩
    · rw [if_neg hp]
      exact ⟨⟨fun h => (by cases h), fun h => absurd h hp⟩,
        ⟨fun _ => (by omega), fun _ => rfl⟩⟩

/-- C15: on a grid with `m_uiGridSizeX >= 1` (and 16-bit sizes) the conversions
between cell index and cell coordinate are mutually inverse: every index below
`GetNumCells()` converts to a coordinate that converts back to the index, and every
coordinate inside the grid converts to an index that converts back to the
coordinate (32-bit arithmetic modulo `2 ^ 32`, under which the number of cells is
the exact product of the sizes, and is what `GetNumCells` returns wherever its
`int` product does not overflow). -/
theorem C15_index_coordinate_roundtrip (self : ezGameGrid) (h1 : 1 ≤ self.m_uiGridSizeX)
    (hx : self.m_uiGridSizeX < 2 ^ 16) (hy : self.m_uiGridSizeY < 2 ^ 16) :
    (∀ i : Nat, i < self.GetNumCellsModulo32 →
      ∃ c : ezVec2I32, self.ConvertCellIndexToCoordinate i = some c ∧
        self.ConvertCellCoordinateToIndex c = i) ∧
    (∀ c : ezVec2I32, 0 ≤ c.x → c.x < self.m_uiGridSizeX →
      0 ≤ c.y → c.y < self.m_uiGridSizeY →
      self.ConvertCellIndexToCoordinate (self.ConvertCellCoordinateToIndex c) = some c) ∧
    self.GetNumCellsModulo32 = self.m_uiGridSizeX * self.m_uiGridSizeY ∧
    (∀ n : Nat, self.GetNumCells = some n → n = self.GetNumCellsModulo32) := by
  obtain ⟨X, Y⟩ := self
  simp only at h1 hx hy ⊢
  refine ⟨?_, ?_, ezGameGrid.GetNumCellsModulo32_eq ⟨X, Y⟩ hx hy, ?_⟩
  rotate_left 2
  · intro n hn
    rw [ezGameGrid.GetNumCellsModulo32_eq ⟨X, Y⟩ hx hy]
    rw [ezGameGrid.GetNumCells_eq] at hn
    simp only at hn
    by_cases hp : X * Y < 2 ^ 31
    · rw [if_pos hp] at hn
      cases hn
      rfl
    · rw [if_neg hp] at hn
      cases hn
  · intro i hi
    rw [ezGameGrid.GetNumCellsModulo32_eq ⟨X, Y⟩ hx hy] at hi
    simp only at hi
    have hX0 : X ≠ 0 := by omega
    have hmod : i % X < X := Nat.mod_lt _ (by omega)
    have hdiv : i / X < Y := by
      rw [Nat.div_lt_iff_lt_mul (by omega)]
      rw [Nat.mul_comm]; exact hi
    have hsum : i / X * X + i % X = i := by
      rw [Nat.mul_comm]; exact Nat.div_add_mod i X
    have hprod : i / X * X ≤ 65535 * 65535 := Nat.mul_le_mul (by omega) (by omega)
    have hlt : i / X * X + i % X < 2 ^ 32 := by
      have : X * Y ≤ 65535 * 65535 := Nat.mul_le_mul (by omega) (by omega)
      omega
    refine ⟨⟨((i % X : Nat) : Int), ((i / X : Nat) : Int)⟩, ?_, ?_⟩
    · unfold ezGameGrid.ConvertCellIndexToCoordinate
      dsimp only
      rw [if_neg hX0, toInt32_natCast _ (by omega), toInt32_natCast _ (by omega)]
    · unfold ezGameGrid.ConvertCellCoordinateToIndex
      dsimp only
      have hc3 : ((i / X : Nat) : Int) * (X : Int) = ((i / X * X : Nat) : Int) := by
        push_cast; rfl
      rw [hc3, toUInt32_wrap_add _ _ hlt, hsum]
  · intro c hx0 hxX hy0 hyY
    obtain ⟨cx, cy⟩ := c
    simp only at hx0 hxX hy0 hyY
    obtain ⟨a, rfl⟩ := Int.eq_ofNat_of_zero_le hx0
    obtain ⟨b, rfl⟩ := Int.eq_ofNat_of_zero_le hy0
    have ha : a < X := by exact_mod_cast hxX
    have hb : b < Y := by exact_mod_cast hyY
    have hprod : b * X ≤ 65535 * 65535 := Nat.mul_le_mul (by omega) (by omega)
    have hlt : b * X + a < 2 ^ 32 := by omega
    have hidx : ezGameGrid.ConvertCellCoordinateToIndex ⟨X, Y⟩ ⟨(a : Int), (b : Int)⟩
        = b * X + a := by
      unfold ezGameGrid.ConvertCellCoordinateToIndex
      dsimp only
      have hc3 : ((b : Int)) * (X : Int) = ((b * X : Nat) : Int) := by push_cast; rfl
      rw [hc3, toUInt32_wrap_add _ _ hlt]
    rw [hidx]
    have hX0 : X ≠ 0 := by omega
    have hm : (b * X + a) % X = a := by
      rw [Nat.add_comm, Nat.add_mul_mod_self_right]; exact Nat.mod_eq_of_lt ha
    have hd : (b * X + a) / X = b := by
      rw [Nat.add_comm, Nat.add_mul_div_right _ _ (by omega : 0 < X)]
      rw [Nat.div_eq_of_lt ha]; omega
    unfold ezGameGrid.ConvertCellIndexToCoordinate
    dsimp only
    rw [if_neg hX0, hm, hd, toInt32_natCast _ (by omega), toInt32_natCast _ (by omega)]

/-- C15 at a concrete input: on the grid of 300 x 200 cells, index 12345 and the
coordinate (45, 41) convert into each other. -/
theorem C15_index_coordinate_roundtrip_witness :
    ((1 : Nat) ≤ 300 ∧ (300 : Nat) < 2 ^ 16 ∧ (200 : Nat) < 2 ^ 16) ∧
    (⟨300, 200⟩ : ezGameGrid).ConvertCellIndexToCoordinate
      ((⟨300, 200⟩ : ezGameGrid).ConvertCellCoordinateToIndex ⟨45, 41⟩) = some ⟨45, 41⟩ ∧
    (⟨300, 200⟩ : ezGameGrid).ConvertCellCoordinateToIndex ⟨45, 41⟩ = 12345 :=
  ⟨by decide,
    (C15_index_coordinate_roundtrip ⟨300, 200⟩ (by decide) (by decide) (by decide)).2.1
      ⟨45, 41⟩ (by decide) (by decide) (by decide) (by decide),
    by decide⟩

/-! ### Loading a sprite particle type -/

/-- C20: `ezParticleTypeSpriteFactory::Load` is gated by the stored version byte:
for version 0 or 1 it reads nothing further and leaves `m_sTexture` and
`m_RotationAxis` unchanged; for version 2 it reads only the texture and leaves
`m_RotationAxis` unchanged; for version 3 it reads the texture and then the
rotation axis; for any version greater than `Version_Current`, which is 3, the
development assertion fails. -/
theorem C20_Load_gated_by_version {S : Type} (reader : ezStreamReader S)
    (self : ezParticleTypeSpriteFactory) (stream : S) :
    TypeSpriteVersion.Version_Current = 3 ∧
    ((reader.ReadUInt8 stream).1 ≤ 1 →
      self.Load reader stream = LoadOutcome.Loaded self (reader.ReadUInt8 stream).2) ∧
    ((reader.ReadUInt8 stream).1 = 2 →
      self.Load reader stream =
        LoadOutcome.Loaded
          { self with m_sTexture := (reader.ReadString (reader.ReadUInt8 stream).2).1 }
          (reader.ReadString (reader.ReadUInt8 stream).2).2) ∧
    ((reader.ReadUInt8 stream).1 = 3 →
      self.Load reader stream =
        LoadOutcome.Loaded
          { m_sTexture := (reader.ReadString (reader.ReadUInt8 stream).2).1
            m_RotationAxis :=
              (reader.ReadAxis (reader.ReadString (reader.ReadUInt8 stream).2).2).1 }
          (reader.ReadAxis (reader.ReadString (reader.ReadUInt8 stream).2).2).2) ∧
    (TypeSpriteVersion.Version_Current < (reader.ReadUInt8 stream).1 →
      self.Load reader stream = LoadOutcome.InvalidVersion (reader.ReadUInt8 stream).1) := by
  have hcur : TypeSpriteVersion.Version_Current = 3 := rfl
  refine ⟨hcur, ?_, ?_, ?_, ?_⟩
  · intro h
    have h2 : ¬ (reader.ReadUInt8 stream).1 ≥ 2 := by omega
    have h3 : ¬ (reader.ReadUInt8 stream).1 ≥ 3 := by omega
    have h4 : (reader.ReadUInt8 stream).1 ≤ 3 := by omega
    simp [ezParticleTypeSpriteFactory.Load, hcur, h2, h3, h4]
  · intro h
    simp [ezParticleTypeSpriteFactory.Load, hcur, h]
  · intro h
    simp [ezParticleTypeSpriteFactory.Load, hcur, h]
  · intro h
    rw [hcur] at h
    have h4 : ¬ (reader.ReadUInt8 stream).1 ≤ 3 := by omega
    simp [ezParticleTypeSpriteFactory.Load, hcur, h4]

/-! ### The hash table and the queue of the path search -/

/-- A lookup after `Insert` finds the inserted value under its key and the old
values elsewhere. -/
theorem ezHashTable.TryGetValue_Insert {K V : Type} [DecidableEq K] (table : List (K × V))
    (key : K) (value : V) (k : K) :
    ezHashTable.TryGetValue (ezHashTable.Insert table key value) k =
      if k = key then some value else ezHashTable.TryGetValue table k := by
  induction table with
  | nil =>
    by_cases h : k = key
    · simp [ezHashTable.Insert, ezHashTable.TryGetValue, h]
    · have h2 : ¬ key = k := fun e => h e.symm
      simp [ezHashTable.Insert, ezHashTable.TryGetValue, h, h2]
  | cons e rest ih =>
    obtain ⟨k0, v0⟩ := e
    unfold ezHashTable.Insert
    by_cases h0 : k0 = key
    · by_cases h : k = key
      · simp [h0, h, ezHashTable.TryGetValue]
      · have h2 : ¬ key = k := fun e => h e.symm
        simp [h0, h, h2, ezHashTable.TryGetValue]
    · simp only [h0, if_false]
      unfold ezHashTable.TryGetValue
      by_cases h1 : k0 = k
      · have h : ¬ k = key := fun e => h0 (h1.trans e)
        simp [h1, h]
      · simp [h1, ih]

/-- A value found by a lookup is stored in the table under that key. -/
theorem ezHashTable.mem_of_TryGetValue {K V : Type} [DecidableEq K] (table : List (K × V))
    (key : K) (v : V) (h : ezHashTable.TryGetValue table key = some v) : (key, v) ∈ table := by
  induction table with
  | nil => simp [ezHashTable.TryGetValue] at h
  | cons e rest ih =>
    obtain ⟨k0, v0⟩ := e
    unfold ezHashTable.TryGetValue at h
    by_cases h0 : k0 = key
    · simp [h0] at h; simp [h0, h]
    · simp [h0] at h; simp [ih h]

/-- An access to a stored key leaves the table as it is. -/
theorem ezHashTable.Index_of_some {K V : Type} [DecidableEq K] (table : List (K × V))
    (key : K) (Default v : V) (h : ezHashTable.TryGetValue table key = some v) :
    ezHashTable.Index table key Default = (table, v) := by
  simp [ezHashTable.Index, h]

/-- An access through `operator[]` does not change what later accesses refer to. -/
theorem ezHashTable.Index_Index {K V : Type} [DecidableEq K] (table : List (K × V))
    (key : K) (Default : V) (k : K) :
    (ezHashTable.Index (ezHashTable.Index table key Default).1 k Default).2 =
      (ezHashTable.Index table k Default).2 := by
  unfold ezHashTable.Index
  cases h : ezHashTable.TryGetValue table key with
  | some v => rfl
  | none =>
    simp only [ezHashTable.TryGetValue_Insert]
    by_cases hk : k = key
    · subst hk; simp [h]
    · simp only [hk, if_false]
      cases ezHashTable.TryGetValue table k <;> rfl

/-- Removing with `RemoveAtSwap` takes out exactly the entry at the index: the
removed entry together with the remaining queue is a rearrangement of the queue. -/
theorem ezDeque.RemoveAtSwap_perm (queue : List Int) :
    ∀ (index : Nat) (b : Int), queue[index]? = some b →
      (b :: ezDeque.RemoveAtSwap queue index).Perm queue := by
  have key : ∀ (q : List Int) (index : Nat) (b last : Int), q[index]? = some b →
      q.getLast? = some last → (b :: (q.set index last).dropLast).Perm q := by
    intro q
    induction q with
    | nil => intro index b last h; simp at h
    | cons h tl ih =>
      intro index b last hb hl
      cases tl with
      | nil =>
        cases index with
        | zero =>
          simp at hb hl
          subst hb; subst hl; simp
        | succ j => simp at hb
      | cons t tl2 =>
        have hl2 : (t :: tl2).getLast? = some last := by
          simpa [List.getLast?_cons_cons] using hl
        cases index with
        | zero =>
          simp at hb
          subst hb
          have e : (t :: tl2).dropLast ++ [last] = t :: tl2 :=
            List.dropLast_append_getLast? last hl2
          have p1 : (last :: (t :: tl2).dropLast).Perm (t :: tl2) := by
            have := @List.perm_append_comm Int [last] ((t :: tl2).dropLast)
            rw [e] at this
            simpa using this
          simpa using List.Perm.cons h p1
        | succ j =>
          have hb2 : (t :: tl2)[j]? = some b := by simpa using hb
          have ih2 := ih j b last hb2 hl2
          have hne : (t :: tl2).set j last ≠ [] := by
            intro e
            have := congrArg List.length e
            simp at this
          have e2 : ((h :: t :: tl2).set (j + 1) last).dropLast
              = h :: ((t :: tl2).set j last).dropLast := by
            rw [List.set_cons_succ, List.dropLast_cons_of_ne_nil hne]
          rw [e2]
          exact (List.Perm.swap h b _).trans (List.Perm.cons h ih2)
  intro index b hb
  have hlt : index < queue.length := by
    rcases Nat.lt_or_ge index queue.length with h | h
    · exact h
    · rw [List.getElem?_eq_none h] at hb; simp at hb
  unfold ezDeque.RemoveAtSwap
  rw [if_pos hlt]
  cases hl : queue.getLast? with
  | none =>
    rw [List.getLast?_eq_none_iff] at hl
    subst hl; simp at hlt
  | some last => exact key queue index b last hb hl

/-! ### `AddPathNode` -/

/-- A call of `AddPathNode` that returns passed the three assertions against the
current state and took one of the three branches. -/
theorem ezPathSearch.AddPathNode_ok {C : Type} [LinearOrder C] (self next : ezPathSearch C)
    (iNodeIndex : Int) (NewState : ezPathState C)
    (h : self.AddPathNode iNodeIndex NewState = Except.ok next) :
    ∃ cur : ezPathState C,
      self.m_pCurPathState.bind (ezHashTable.TryGetValue self.m_PathStates) = some cur ∧
      cur.m_fCostToNode < NewState.m_fCostToNode ∧
      cur.m_fEstimatedCostToTarget ≤ NewState.m_fEstimatedCostToTarget ∧
      NewState.m_fCostToNode ≤ NewState.m_fEstimatedCostToTarget ∧
      next =
        (match ezHashTable.TryGetValue self.m_PathStates iNodeIndex with
          | some pExistingState =>
            if pExistingState.m_fCostToNode ≤ NewState.m_fCostToNode then self
            else
              { self with
                m_PathStates :=
                  ezHashTable.Insert self.m_PathStates iNodeIndex
                    { NewState with m_iReachedThroughNode := self.m_iCurNodeIndex } }
          | none =>
            { self with
              m_PathStates :=
                ezHashTable.Insert self.m_PathStates iNodeIndex
                  { NewState with m_iReachedThroughNode := self.m_iCurNodeIndex }
              m_StateQueue := self.m_StateQueue ++ [iNodeIndex] }) := by
  unfold ezPathSearch.AddPathNode at h
  cases hc : self.m_pCurPathState.bind (ezHashTable.TryGetValue self.m_PathStates) with
  | none => rw [hc] at h; simp at h
  | some cur =>
    rw [hc] at h
    simp only at h
    by_cases h1 : NewState.m_fCostToNode > cur.m_fCostToNode
    · by_cases h2 : NewState.m_fEstimatedCostToTarget ≥ cur.m_fEstimatedCostToTarget
      · by_cases h3 : NewState.m_fEstimatedCostToTarget ≥ NewState.m_fCostToNode
        · refine ⟨cur, rfl, h1, h2, h3, ?_⟩
          simp only [h1, h2, h3, not_true_eq_false, if_false] at h
          cases he : ezHashTable.TryGetValue self.m_PathStates iNodeIndex with
          | some e =>
            rw [he] at h
            simp only at h ⊢
            by_cases hle : e.m_fCostToNode ≤ NewState.m_fCostToNode
            · simp only [hle, if_true] at h ⊢
              exact (Except.ok.inj h).symm
            · simp only [hle, if_false] at h ⊢
              exact (Except.ok.inj h).symm
          | none =>
            rw [he] at h
            simp only at h ⊢
            exact (Except.ok.inj h).symm
        · simp [h1, h2, h3] at h
      · simp [h1, h2] at h
    · simp [h1] at h

/-- A call of `AddPathNode` made while `m_pCurPathState` points to a stored state
and with a new state that satisfies the three assertions returns, with the search
object that the branch on the state stored for `iNodeIndex` produces. -/
theorem ezPathSearch.AddPathNode_returns {C : Type} [LinearOrder C] (self : ezPathSearch C)
    (iNodeIndex : Int) (NewState cur : ezPathState C)
    (hcur : self.m_pCurPathState.bind (ezHashTable.TryGetValue self.m_PathStates) = some cur)
    (h1 : NewState.m_fCostToNode > cur.m_fCostToNode)
    (h2 : NewState.m_fEstimatedCostToTarget ≥ cur.m_fEstimatedCostToTarget)
    (h3 : NewState.m_fEstimatedCostToTarget ≥ NewState.m_fCostToNode) :
    self.AddPathNode iNodeIndex NewState = Except.ok
      (match ezHashTable.TryGetValue self.m_PathStates iNodeIndex with
        | some pExistingState =>
          if pExistingState.m_fCostToNode ≤ NewState.m_fCostToNode then self
          else
            { self with
              m_PathStates :=
                ezHashTable.Insert self.m_PathStates iNodeIndex
                  { NewState with m_iReachedThroughNode := self.m_iCurNodeIndex } }
        | none =>
          { self with
            m_PathStates :=
              ezHashTable.Insert self.m_PathStates iNodeIndex
                { NewState with m_iReachedThroughNode := self.m_iCurNodeIndex }
            m_StateQueue := self.m_StateQueue ++ [iNodeIndex] }) := by
  unfold ezPathSearch.AddPathNode
  rw [hcur]
  simp only [h1, h2, h3, not_true_eq_false, if_false]
  cases he : ezHashTable.TryGetValue self.m_PathStates iNodeIndex with
  | some e =>
    simp only
    by_cases hle : e.m_fCostToNode ≤ NewState.m_fCostToNode
    · simp only [hle, if_true]
    · simp only [hle, if_false]
  | none => rfl

/-- C18: `AddPathNode` keeps the cheaper state per node. A call made while a node
is being expanded, with a new state that satisfies the three assertions, returns,
and: if a state for `iNodeIndex` exists with
`m_fCostToNode <= NewState.m_fCostToNode`, the search object (state table and
queue) is unchanged; if one exists with a higher cost, it is replaced by `NewState`
with `m_iReachedThroughNode` set to the current node, the other states and the
queue staying as they are; if none exists, `NewState` is inserted with
`m_iReachedThroughNode` set to the current node, the other states stay as they
are, and `iNodeIndex` is appended to the queue once. In every case the stored cost
of a node does not increase. -/
theorem C18_AddPathNode_keeps_cheaper_state {C : Type} [LinearOrder C]
    (self : ezPathSearch C) (iNodeIndex : Int) (NewState cur : ezPathState C)
    (hcur : self.m_pCurPathState.bind (ezHashTable.TryGetValue self.m_PathStates) = some cur)
    (h1 : NewState.m_fCostToNode > cur.m_fCostToNode)
    (h2 : NewState.m_fEstimatedCostToTarget ≥ cur.m_fEstimatedCostToTarget)
    (h3 : NewState.m_fEstimatedCostToTarget ≥ NewState.m_fCostToNode) :
    ∃ next : ezPathSearch C,
      self.AddPathNode iNodeIndex NewState = Except.ok next ∧
      (∀ e : ezPathState C, ezHashTable.TryGetValue self.m_PathStates iNodeIndex = some e →
        e.m_fCostToNode ≤ NewState.m_fCostToNode → next = self) ∧
      (∀ e : ezPathState C, ezHashTable.TryGetValue self.m_PathStates iNodeIndex = some e →
        NewState.m_fCostToNode < e.m_fCostToNode →
        ezHashTable.TryGetValue next.m_PathStates iNodeIndex
            = some { NewState with m_iReachedThroughNode := self.m_iCurNodeIndex } ∧
          (∀ k : Int, k ≠ iNodeIndex →
            ezHashTable.TryGetValue next.m_PathStates k
              = ezHashTable.TryGetValue self.m_PathStates k) ∧
          next.m_StateQueue = self.m_StateQueue) ∧
      (ezHashTable.TryGetValue self.m_PathStates iNodeIndex = none →
        ezHashTable.TryGetValue next.m_PathStates iNodeIndex
            = some { NewState with m_iReachedThroughNode := self.m_iCurNodeIndex } ∧
          (∀ k : Int, k ≠ iNodeIndex →
            ezHashTable.TryGetValue next.m_PathStates k
              = ezHashTable.TryGetValue self.m_PathStates k) ∧
          next.m_StateQueue = self.m_StateQueue ++ [iNodeIndex]) ∧
      (∀ (k : Int) (e e2 : ezPathState C),
        ezHashTable.TryGetValue self.m_PathStates k = some e →
        ezHashTable.TryGetValue next.m_PathStates k = some e2 →
        e2.m_fCostToNode ≤ e.m_fCostToNode) ∧
      next.m_iCurNodeIndex = self.m_iCurNodeIndex ∧
      next.m_pCurPathState = self.m_pCurPathState := by
  have hret := ezPathSearch.AddPathNode_returns self iNodeIndex NewState cur hcur h1 h2 h3
  refine ⟨_, hret, ?_, ?_, ?_, ?_, ?_, ?_⟩
  · intro e he hle
    rw [he]
    simp only [hle, if_true]
  · intro e he hlt
    have hnle : ¬ e.m_fCostToNode ≤ NewState.m_fCostToNode := not_le.mpr hlt
    rw [he]
    simp only [hnle, if_false]
    refine ⟨?_, ?_, trivial⟩
    · simp [ezHashTable.TryGetValue_Insert]
    · intro k hk
      simp [ezHashTable.TryGetValue_Insert, hk]
  · intro he
    rw [he]
    refine ⟨?_, ?_, rfl⟩
    · simp [ezHashTable.TryGetValue_Insert]
    · intro k hk
      simp [ezHashTable.TryGetValue_Insert, hk]
  · intro k e e2 hk hk2
    cases he : ezHashTable.TryGetValue self.m_PathStates iNodeIndex with
    | some e0 =>
      rw [he] at hk2
      by_cases hle : e0.m_fCostToNode ≤ NewState.m_fCostToNode
      · simp only [hle, if_true] at hk2
        rw [hk] at hk2
        cases hk2
        exact le_refl _
      · simp only [hle, if_false, ezHashTable.TryGetValue_Insert] at hk2
        by_cases hkn : k = iNodeIndex
        · subst hkn
          simp only [if_true] at hk2
          cases hk2
          rw [he] at hk
          cases hk
          exact le_of_lt (not_le.mp hle)
        · simp only [hkn, if_false] at hk2
          rw [hk] at hk2
          cases hk2
          exact le_refl _
    | none =>
      rw [he] at hk2
      simp only [ezHashTable.TryGetValue_Insert] at hk2
      by_cases hkn : k = iNodeIndex
      · subst hkn
        rw [he] at hk
        cases hk
      · simp only [hkn, if_false] at hk2
        rw [hk] at hk2
        cases hk2
        exact le_refl _
  · cases he : ezHashTable.TryGetValue self.m_PathStates iNodeIndex with
    | some e0 =>
      simp only
      by_cases hle : e0.m_fCostToNode ≤ NewState.m_fCostToNode
      · simp only [hle, if_true]
      · simp only [hle, if_false]
    | none => rfl
  · cases he : ezHashTable.TryGetValue self.m_PathStates iNodeIndex with
    | some e0 =>
      simp only
      by_cases hle : e0.m_fCostToNode ≤ NewState.m_fCostToNode
      · simp only [hle, if_true]
      · simp only [hle, if_false]
    | none => rfl

/-! ### `FindBestNodeToExpand` -/

/-- The loop of `FindBestNodeToExpand` keeps `BestSoFar` and does not change what
the state table yields for a node. -/
theorem ezPathSearch.findBestLoop_spec {C : Type} [LinearOrder C] (Default : ezPathState C)
    (Infinity : C) (table0 : List (Int × ezPathState C)) (rest : List Int) :
    ∀ (pre : List Int) (vars : BestLoopVars C),
      (∀ n, (ezHashTable.Index vars.m_PathStates n Default).2
        = (ezHashTable.Index table0 n Default).2) →
      ezPathSearch.BestSoFar
        (fun n => (ezHashTable.Index table0 n Default).2.m_fEstimatedCostToTarget)
        Infinity pre vars →
      (∀ n, (ezHashTable.Index
          (ezPathSearch.findBestLoop Default rest pre.length vars).m_PathStates n Default).2
        = (ezHashTable.Index table0 n Default).2) ∧
      ezPathSearch.BestSoFar
        (fun n => (ezHashTable.Index table0 n Default).2.m_fEstimatedCostToTarget)
        Infinity (pre ++ rest) (ezPathSearch.findBestLoop Default rest pre.length vars) := by
  induction rest with
  | nil =>
    intro pre vars ht hinv
    simpa [ezPathSearch.findBestLoop] using And.intro ht hinv
  | cons n rest ih =>
    intro pre vars ht hinv
    have hst : (ezHashTable.Index vars.m_PathStates n Default).2
        = (ezHashTable.Index table0 n Default).2 := ht n
    have ht2 : ∀ k, (ezHashTable.Index
        (ezHashTable.Index vars.m_PathStates n Default).1 k Default).2
        = (ezHashTable.Index table0 k Default).2 := by
      intro k
      rw [ezHashTable.Index_Index]
      exact ht k
    have hlen : (pre ++ [n]).length = pre.length + 1 := by simp
    have happ : pre ++ n :: rest = (pre ++ [n]) ++ rest := by simp
    unfold ezPathSearch.findBestLoop
    simp only
    rw [happ, ← hlen]
    by_cases hlt : (ezHashTable.Index vars.m_PathStates n Default).2.m_fEstimatedCostToTarget
        < vars.fLowestEstimation
    · rw [if_pos hlt]
      apply ih (pre ++ [n]) _ ht2
      rw [hst] at hlt ⊢
      right
      refine ⟨n, rfl, by simp, rfl, ?_, ?_, ?_⟩
      · rcases hinv with ⟨_, hlow, _⟩ | ⟨b, _, _, hlow, hb, _, _⟩
        · rw [hlow] at hlt; exact hlt
        · rw [hlow] at hlt; exact lt_trans hlt hb
      · intro m hm
        simp only [List.mem_append, List.mem_singleton] at hm
        rcases hm with hm | hm
        · rcases hinv with ⟨_, hlow, hall⟩ | ⟨b, _, _, hlow, _, hall, _⟩
          · rw [hlow] at hlt
            exact le_of_lt (lt_of_lt_of_le hlt (not_lt.mp (hall m hm)))
          · rw [hlow] at hlt
            exact le_of_lt (lt_of_lt_of_le hlt (hall m hm))
        · subst hm; exact le_refl _
      · intro j m hj hm
        simp only at hj
        rw [List.getElem?_append_left hj] at hm
        have hmem : m ∈ pre := List.getElem?_mem hm
        rcases hinv with ⟨_, hlow, hall⟩ | ⟨b, _, _, hlow, _, hall, _⟩
        · rw [hlow] at hlt
          exact lt_of_lt_of_le hlt (not_lt.mp (hall m hmem))
        · rw [hlow] at hlt
          exact lt_of_lt_of_le hlt (hall m hmem)
    · rw [if_neg hlt]
      apply ih (pre ++ [n]) _ ht2
      rw [hst] at hlt
      rcases hinv with ⟨hout, hlow, hall⟩ | ⟨b, hout, hidx, hlow, hb, hall, hfirst⟩
      · left
        refine ⟨hout, hlow, ?_⟩
        intro m hm
        simp only [List.mem_append, List.mem_singleton] at hm
        rcases hm with hm | hm
        · exact hall m hm
        · subst hm; rw [hlow] at hlt; exact hlt
      · right
        have hbl : vars.iBestInQueue < pre.length := by
          rcases Nat.lt_or_ge vars.iBestInQueue pre.length with h | h
          · exact h
          · rw [List.getElem?_eq_none h] at hidx; simp at hidx
        refine ⟨b, hout, ?_, hlow, hb, ?_, ?_⟩
        · simp only
          rw [List.getElem?_append_left hbl]; exact hidx
        · intro m hm
          simp only [List.mem_append, List.mem_singleton] at hm
          rcases hm with hm | hm
          · exact hall m hm
          · subst hm; rw [hlow] at hlt; exact not_lt.mp hlt
        · intro j m hj hm
          simp only at hj
          rw [List.getElem?_append_left (lt_trans hj hbl)] at hm
          exact hfirst j m hj hm

/-- C17: `FindBestNodeToExpand` picks the least estimate. For every state queue in
which some queued node has an estimate below `Infinity` (so the queue is not
empty), it returns the index `b` of a queued node whose state has the least
`m_fEstimatedCostToTarget` over all queued nodes, the first such node in queue
order; `out_pPathState` points to the state of `b`; and exactly that one entry is
taken out of the queue, all other entries staying in it (the queue before is a
rearrangement of `b` followed by the queue after, which is shorter by one). -/
theorem C17_FindBestNodeToExpand_picks_least_estimate {C : Type} [LinearOrder C]
    (Infinity : C) (Default : ezPathState C) (self : ezPathSearch C)
    (hfin : ∃ n ∈ self.m_StateQueue,
      (self.StateAt Default n).m_fEstimatedCostToTarget < Infinity) :
    ∃ (next : ezPathSearch C) (b : Int) (i : Nat),
      self.FindBestNodeToExpand Infinity Default = Except.ok (next, b, some b) ∧
      self.m_StateQueue[i]? = some b ∧
      (∀ n ∈ self.m_StateQueue,
        (self.StateAt Default b).m_fEstimatedCostToTarget
          ≤ (self.StateAt Default n).m_fEstimatedCostToTarget) ∧
      (∀ (j : Nat) (m : Int), j < i → self.m_StateQueue[j]? = some m →
        (self.StateAt Default b).m_fEstimatedCostToTarget
          < (self.StateAt Default m).m_fEstimatedCostToTarget) ∧
      (∀ n, next.StateAt Default n = self.StateAt Default n) ∧
      next.m_StateQueue = ezDeque.RemoveAtSwap self.m_StateQueue i ∧
      (b :: next.m_StateQueue).Perm self.m_StateQueue ∧
      next.m_StateQueue.length + 1 = self.m_StateQueue.length := by
  have hloop := ezPathSearch.findBestLoop_spec Default Infinity self.m_PathStates
    self.m_StateQueue [] ⟨self.m_PathStates, Infinity, none, 0⟩ (fun _ => rfl)
    (Or.inl ⟨rfl, rfl, by simp⟩)
  simp only [List.length_nil, List.nil_append] at hloop
  obtain ⟨htab, hbest⟩ := hloop
  rcases hbest with ⟨_, _, hall⟩ | ⟨b, hout, hidx, _, _, hmin, hfirst⟩
  · obtain ⟨n, hn, hlt⟩ := hfin
    exact absurd hlt (hall n hn)
  · refine ⟨{ self with
        m_PathStates := (ezPathSearch.findBestLoop Default self.m_StateQueue 0
          ⟨self.m_PathStates, Infinity, none, 0⟩).m_PathStates
        m_StateQueue := ezDeque.RemoveAtSwap self.m_StateQueue
          (ezPathSearch.findBestLoop Default self.m_StateQueue 0
            ⟨self.m_PathStates, Infinity, none, 0⟩).iBestInQueue },
      b,
      (ezPathSearch.findBestLoop Default self.m_StateQueue 0
        ⟨self.m_PathStates, Infinity, none, 0⟩).iBestInQueue, ?_, hidx, hmin, hfirst, htab,
      rfl, ?_, ?_⟩
    · unfold ezPathSearch.FindBestNodeToExpand
      simp only [hout, hidx]
    · exact ezDeque.RemoveAtSwap_perm _ _ _ hidx
    · have hp := (ezDeque.RemoveAtSwap_perm self.m_StateQueue _ _ hidx).length_eq
      simpa using hp

/-- C17 at a concrete input: with the nodes 4, 7 and 9 queued at estimates 30, 10
and 10, node 7 is returned and the queue left is 4, 9 in swapped order. -/
theorem C17_FindBestNodeToExpand_picks_least_estimate_witness :
    (∃ n ∈ exampleQueued.m_StateQueue,
      (exampleQueued.StateAt exampleDefaultState n).m_fEstimatedCostToTarget
        < exampleInfinity) ∧
    exampleQueued.FindBestNodeToExpand exampleInfinity exampleDefaultState =
      Except.ok ({ exampleQueued with m_StateQueue := [4, 9] }, 7, some 7) ∧
    ∃ (next : ezPathSearch Nat) (b : Int) (i : Nat),
      exampleQueued.FindBestNodeToExpand exampleInfinity exampleDefaultState
        = Except.ok (next, b, some b) ∧
      exampleQueued.m_StateQueue[i]? = some b ∧
      (b :: next.m_StateQueue).Perm exampleQueued.m_StateQueue :=
  ⟨⟨7, by decide, by decide⟩, rfl,
    (C17_FindBestNodeToExpand_picks_least_estimate exampleInfinity exampleDefaultState
      exampleQueued ⟨7, by decide, by decide⟩).imp
      (fun _ h => h.imp (fun _ h2 => h2.imp (fun _ h3 => ⟨h3.1, h3.2.1, h3.2.2.2.2.2.2.1⟩)))⟩

/-! ### The invariant of a `FindPath` run -/

/-- The search object on entry to the loop of `FindPath` satisfies the invariant. -/
theorem ezPathSearch.Invariant_startSearch {C : Type} [LinearOrder C] (self : ezPathSearch C)
    (iStartNodeIndex : Int) (StartState : ezPathState C) :
    ezPathSearch.Invariant iStartNodeIndex StartState false
      (self.startSearch iStartNodeIndex StartState) := by
  have hlook : ∀ n, ezHashTable.TryGetValue
      (self.startSearch iStartNodeIndex StartState).m_PathStates n
      = if n = iStartNodeIndex then
          some { StartState with m_iReachedThroughNode := iStartNodeIndex } else none := by
    intro n
    simp only [ezPathSearch.startSearch, ezPathSearch.ClearPathStates,
      ezHashTable.TryGetValue_Insert]
    rfl
  refine ⟨?_, ?_, ?_, ?_, ?_⟩
  · rw [hlook]; simp
  · intro n sn hn hne
    rw [hlook, if_neg hne] at hn; cases hn
  · intro n sn hn hne
    rw [hlook, if_neg hne] at hn; cases hn
  · intro n hn
    simp only [ezPathSearch.startSearch, ezPathSearch.ClearPathStates, List.nil_append,
      List.mem_singleton] at hn
    subst hn
    exact ⟨_, (hlook _).trans (if_pos rfl)⟩
  · intro h; cases h

/-- When every queue entry is stored, the loop of `FindBestNodeToExpand` leaves the
state table as it is. -/
theorem ezPathSearch.findBestLoop_table {C : Type} [LinearOrder C] (Default : ezPathState C)
    (rest : List Int) :
    ∀ (i : Nat) (vars : BestLoopVars C),
      (∀ n ∈ rest, ∃ sn, ezHashTable.TryGetValue vars.m_PathStates n = some sn) →
      (ezPathSearch.findBestLoop Default rest i vars).m_PathStates = vars.m_PathStates := by
  induction rest with
  | nil => intro i vars _; rfl
  | cons n rest ih =>
    intro i vars hst
    obtain ⟨sn, hsn⟩ := hst n (by simp)
    have hidx := ezHashTable.Index_of_some vars.m_PathStates n Default sn hsn
    unfold ezPathSearch.findBestLoop
    simp only [hidx]
    split
    · rw [ih]
      intro m hm
      exact hst m (by simp [hm])
    · rw [ih]
      intro m hm
      exact hst m (by simp [hm])

/-- A call of `FindBestNodeToExpand` that returns hands back a queued node, points
`out_pPathState` to its state and takes it out of the queue. -/
theorem ezPathSearch.FindBestNodeToExpand_ok {C : Type} [LinearOrder C] (Infinity : C)
    (Default : ezPathState C) (self s1 : ezPathSearch C) (iBest : Int) (pBest : Option Int)
    (h : self.FindBestNodeToExpand Infinity Default = Except.ok (s1, iBest, pBest)) :
    ∃ i : Nat, self.m_StateQueue[i]? = some iBest ∧ pBest = some iBest ∧
      s1 = { self with
        m_PathStates := (ezPathSearch.findBestLoop Default self.m_StateQueue 0
          ⟨self.m_PathStates, Infinity, none, 0⟩).m_PathStates
        m_StateQueue := ezDeque.RemoveAtSwap self.m_StateQueue i } := by
  have hloop := ezPathSearch.findBestLoop_spec Default Infinity self.m_PathStates
    self.m_StateQueue [] ⟨self.m_PathStates, Infinity, none, 0⟩ (fun _ => rfl)
    (Or.inl ⟨rfl, rfl, by simp⟩)
  simp only [List.length_nil, List.nil_append] at hloop
  obtain ⟨_, hbest⟩ := hloop
  unfold ezPathSearch.FindBestNodeToExpand at h
  rcases hbest with ⟨hout, _, _⟩ | ⟨b, hout, hidx, _, _, _, _⟩
  · simp only [hout] at h
    cases h
  · simp only [hout, hidx] at h
    have h2 := Except.ok.inj h
    simp only [Prod.mk.injEq] at h2
    obtain ⟨hs, hb, hp⟩ := h2
    subst hb
    exact ⟨_, hidx, hp.symm, hs.symm⟩

/-- `FindBestNodeToExpand` keeps the invariant, and afterwards a node is being
expanded. -/
theorem ezPathSearch.Invariant_FindBestNodeToExpand {C : Type} [LinearOrder C] (Infinity : C)
    (Default : ezPathState C) (iStartNodeIndex : Int) (StartState : ezPathState C)
    (expanding : Bool) (self s1 : ezPathSearch C) (iBest : Int) (pBest : Option Int)
    (hinv : ezPathSearch.Invariant iStartNodeIndex StartState expanding self)
    (h : self.FindBestNodeToExpand Infinity Default = Except.ok (s1, iBest, pBest)) :
    ezPathSearch.Invariant iStartNodeIndex StartState true
      { s1 with m_iCurNodeIndex := iBest, m_pCurPathState := pBest } := by
  obtain ⟨i, hidx, hp, hs1⟩ :=
    ezPathSearch.FindBestNodeToExpand_ok Infinity Default self s1 iBest pBest h
  have htab := ezPathSearch.findBestLoop_table Default self.m_StateQueue 0
    ⟨self.m_PathStates, Infinity, none, 0⟩ hinv.queue_stored
  simp only at htab
  rw [htab] at hs1
  subst hs1
  subst hp
  have hperm := ezDeque.RemoveAtSwap_perm self.m_StateQueue i iBest hidx
  refine ⟨hinv.start_stored, hinv.reached_lower, hinv.above_start, ?_, ?_⟩
  · intro n hn
    simp only at hn
    exact hinv.queue_stored n (hperm.subset (List.mem_cons_of_mem _ hn))
  · intro _
    exact ⟨rfl, hinv.queue_stored iBest (List.getElem?_mem hidx)⟩

/-- `AddPathNode` keeps the invariant while a node is being expanded. -/
theorem ezPathSearch.Invariant_AddPathNode {C : Type} [LinearOrder C] (iStartNodeIndex : Int)
    (StartState : ezPathState C) (self next : ezPathSearch C) (iNodeIndex : Int)
    (NewState : ezPathState C)
    (hinv : ezPathSearch.Invariant iStartNodeIndex StartState true self)
    (h : self.AddPathNode iNodeIndex NewState = Except.ok next) :
    ezPathSearch.Invariant iStartNodeIndex StartState true next := by
  obtain ⟨cur, hcur, hcost, _, _, hnext⟩ :=
    ezPathSearch.AddPathNode_ok self next iNodeIndex NewState h
  obtain ⟨hp, sc, hsc⟩ := hinv.current_stored rfl
  rw [hp] at hcur
  change ezHashTable.TryGetValue self.m_PathStates self.m_iCurNodeIndex = some cur at hcur
  rw [hsc] at hcur
  cases hcur
  -- the cost of the start state is at most the cost of the current state
  have hstart : StartState.m_fCostToNode < NewState.m_fCostToNode := by
    by_cases hc : self.m_iCurNodeIndex = iStartNodeIndex
    · rw [hc, hinv.start_stored] at hsc
      cases hsc
      exact hcost
    · exact lt_trans (hinv.above_start _ _ hsc hc) hcost
  -- the invariant after storing the new state under `iNodeIndex`
  have key : ∀ queue : List Int,
      (∀ e, ezHashTable.TryGetValue self.m_PathStates iNodeIndex = some e →
        NewState.m_fCostToNode < e.m_fCostToNode) →
      (∀ n ∈ queue, n = iNodeIndex ∨ n ∈ self.m_StateQueue) →
      ezPathSearch.Invariant iStartNodeIndex StartState true
        { self with
          m_PathStates :=
            ezHashTable.Insert self.m_PathStates iNodeIndex
              { NewState with m_iReachedThroughNode := self.m_iCurNodeIndex }
          m_StateQueue := queue } := by
    intro queue hbetter hqueue
    have hns : iNodeIndex ≠ iStartNodeIndex := by
      intro e
      have := hbetter _ (e ▸ hinv.start_stored)
      exact absurd hstart (not_lt.mpr (le_of_lt this))
    have hnc : iNodeIndex ≠ self.m_iCurNodeIndex := by
      intro e
      have := hbetter _ (e ▸ hsc)
      exact absurd hcost (not_lt.mpr (le_of_lt this))
    refine ⟨?_, ?_, ?_, ?_, ?_⟩
    · simp only [ezHashTable.TryGetValue_Insert]
      rw [if_neg (Ne.symm hns)]
      exact hinv.start_stored
    · intro n sn hn hne
      simp only [ezHashTable.TryGetValue_Insert] at hn ⊢
      by_cases hni : n = iNodeIndex
      · rw [if_pos hni] at hn
        cases hn
        simp only
        rw [if_neg (Ne.symm hnc)]
        exact ⟨cur, hsc, hcost⟩
      · rw [if_neg hni] at hn
        obtain ⟨sp, hsp, hlt⟩ := hinv.reached_lower n sn hn hne
        by_cases hr : sn.m_iReachedThroughNode = iNodeIndex
        · rw [if_pos hr]
          rw [hr] at hsp
          exact ⟨_, rfl, lt_trans (hbetter sp hsp) hlt⟩
        · rw [if_neg hr]
          exact ⟨sp, hsp, hlt⟩
    · intro n sn hn hne
      simp only [ezHashTable.TryGetValue_Insert] at hn
      by_cases hni : n = iNodeIndex
      · rw [if_pos hni] at hn
        cases hn
        exact hstart
      · rw [if_neg hni] at hn
        exact hinv.above_start n sn hn hne
    · intro n hn
      simp only [ezHashTable.TryGetValue_Insert]
      by_cases hni : n = iNodeIndex
      · rw [if_pos hni]; exact ⟨_, rfl⟩
      · rw [if_neg hni]
        rcases hqueue n hn with h1 | h1
        · exact absurd h1 hni
        · exact hinv.queue_stored n h1
    · intro _
      refine ⟨hp, ?_⟩
      simp only [ezHashTable.TryGetValue_Insert]
      rw [if_neg (Ne.symm hnc)]
      exact ⟨cur, hsc⟩
  cases he : ezHashTable.TryGetValue self.m_PathStates iNodeIndex with
  | some e =>
    rw [he] at hnext
    by_cases hle : e.m_fCostToNode ≤ NewState.m_fCostToNode
    · simp only [hle, if_true] at hnext
      rw [hnext]; exact hinv
    · simp only [hle, if_false] at hnext
      rw [hnext]
      apply key self.m_StateQueue
      · intro e2 he2
        rw [he] at he2
        cases he2
        exact not_le.mp hle
      · intro n hn; exact Or.inr hn
  | none =>
    rw [he] at hnext
    simp only at hnext
    rw [hnext]
    apply key (self.m_StateQueue ++ [iNodeIndex])
    · intro e2 he2
      rw [he] at he2
      cases he2
    · intro n hn
      simp only [List.mem_append, List.mem_singleton] at hn
      rcases hn with h1 | h1
      · exact Or.inr h1
      · exact Or.inl h1

/-- Every state of a run satisfies the invariant. -/
theorem ezPathSearch.Invariant_of_InRun {C : Type} [LinearOrder C] (Infinity : C)
    (Default : ezPathState C) (iStartNodeIndex : Int) (StartState : ezPathState C)
    (expanding : Bool) (self : ezPathSearch C)
    (h : ezPathSearch.InRun Infinity Default iStartNodeIndex StartState expanding self) :
    ezPathSearch.Invariant iStartNodeIndex StartState expanding self := by
  induction h with
  | start s0 => exact ezPathSearch.Invariant_startSearch s0 iStartNodeIndex StartState
  | expand e s s1 iBest pBest _ hbest ih =>
    exact ezPathSearch.Invariant_FindBestNodeToExpand Infinity Default iStartNodeIndex
      StartState e s s1 iBest pBest ih hbest
  | add s next n st _ hadd ih =>
    exact ezPathSearch.Invariant_AddPathNode iStartNodeIndex StartState s next n st ih hadd

/-- The calls of `AddPathNode` made by one `GenerateAdjacentStates` stay within the
run. -/
theorem ezPathSearch.InRun_AddPathNodes {C : Type} [LinearOrder C] (Infinity : C)
    (Default : ezPathState C) (iStartNodeIndex : Int) (StartState : ezPathState C)
    (calls : List (Int × ezPathState C)) :
    ∀ (self next : ezPathSearch C),
      ezPathSearch.InRun Infinity Default iStartNodeIndex StartState true self →
      self.AddPathNodes calls = Except.ok next →
      ezPathSearch.InRun Infinity Default iStartNodeIndex StartState true next := by
  induction calls with
  | nil =>
    intro self next hrun h
    simp only [ezPathSearch.AddPathNodes] at h
    cases h
    exact hrun
  | cons c rest ih =>
    intro self next hrun h
    obtain ⟨n, st⟩ := c
    simp only [ezPathSearch.AddPathNodes] at h
    cases hadd : self.AddPathNode n st with
    | error r => rw [hadd] at h; cases h
    | ok mid =>
      rw [hadd] at h
      exact ih mid next (ezPathSearch.InRun.add self mid n st hrun hadd) h

/-! ### `FillOutPathResult` -/

/-- A predicate that implies another and fails on an element on which the other
holds is counted strictly less often. -/
theorem ezPathSearch.countP_lt_countP_of_mem {α : Type} (P Q : α → Bool) (l : List α)
    (himp : ∀ x, P x = true → Q x = true) (x : α) (hx : x ∈ l) (hq : Q x = true)
    (hp : P x = false) : l.countP P < l.countP Q := by
  induction l with
  | nil => simp at hx
  | cons a rest ih =>
    have hle : rest.countP P ≤ rest.countP Q := List.countP_mono_left (fun y _ h => himp y h)
    simp only [List.mem_cons] at hx
    rw [List.countP_cons, List.countP_cons]
    rcases hx with hx | hx
    · subst hx
      rw [hq, hp]
      simp only [if_true, Bool.false_eq_true, if_false]
      omega
    · have := ih hx
      cases hpa : P a with
      | true =>
        rw [himp a hpa]
        simp only [if_true]
        omega
      | false =>
        cases hqa : Q a with
        | true =>
          simp only [if_true, Bool.false_eq_true, if_false]
          omega
        | false =>
          simp only [Bool.false_eq_true, if_false]
          omega

/-- What `FillOutPathResult` returns on a table in which the start node references
itself and every other stored node was reached through a stored node of lower
cost: the table is untouched, and the nodes put in front of `out_Path` lead from
the start node to the end node, each reached through the one before it. -/
theorem ezPathSearch.FillOutPathResult_spec {C : Type} [LinearOrder C]
    (Default : ezPathState C) (iStartNodeIndex : Int) (table : List (Int × ezPathState C))
    (h1 : ∃ st, ezHashTable.TryGetValue table iStartNodeIndex = some st ∧
      st.m_iReachedThroughNode = iStartNodeIndex)
    (h2 : ∀ (n : Int) (sn : ezPathState C), ezHashTable.TryGetValue table n = some sn →
      n ≠ iStartNodeIndex →
      ∃ sp, ezHashTable.TryGetValue table sn.m_iReachedThroughNode = some sp ∧
        sp.m_fCostToNode < sn.m_fCostToNode) :
    ∀ (fuel : Nat) (n : Int) (acc : List Int) (table2 : List (Int × ezPathState C))
      (path : List Int),
      (∃ sn, ezHashTable.TryGetValue table n = some sn) →
      ezPathSearch.FillOutPathResult Default fuel table n acc = some (table2, path) →
      table2 = table ∧
      ∃ pre : List Int, path = pre ++ acc ∧ pre.head? = some iStartNodeIndex ∧
        pre.getLast? = some n ∧ List.Chain' (ezPathSearch.ReachedFrom table) pre := by
  intro fuel
  induction fuel with
  | zero =>
    intro n acc table2 path _ h
    simp [ezPathSearch.FillOutPathResult] at h
  | succ fuel ih =>
    intro n acc table2 path hn h
    obtain ⟨sn, hsn⟩ := hn
    have hidx := ezHashTable.Index_of_some table n Default sn hsn
    unfold ezPathSearch.FillOutPathResult at h
    simp only [hidx] at h
    by_cases hself : n = sn.m_iReachedThroughNode
    · rw [if_pos hself] at h
      simp only [Option.some.injEq, Prod.mk.injEq] at h
      obtain ⟨ht, hpath⟩ := h
      have hstart : n = iStartNodeIndex := by
        by_contra hne
        obtain ⟨sp, hsp, hlt⟩ := h2 n sn hsn hne
        rw [← hself, hsn] at hsp
        cases hsp
        exact lt_irrefl _ hlt
      refine ⟨ht.symm, [n], ?_, ?_, rfl, ?_⟩
      · rw [← hpath]; rfl
      · rw [hstart]; rfl
      · exact List.chain'_singleton n
    · rw [if_neg hself] at h
      have hne : n ≠ iStartNodeIndex := by
        intro e
        obtain ⟨st, hst, hr⟩ := h1
        rw [e, hst] at hsn
        cases hsn
        exact hself (e.trans hr.symm)
      obtain ⟨sp, hsp, hlt⟩ := h2 n sn hsn hne
      obtain ⟨ht, pre, hpath, hhead, hlast, hchain⟩ :=
        ih sn.m_iReachedThroughNode (n :: acc) table2 path ⟨sp, hsp⟩ h
      refine ⟨ht, pre ++ [n], ?_, ?_, ?_, ?_⟩
      · rw [hpath]; simp
      · rw [List.head?_append, hhead]; rfl
      · exact List.getLast?_concat pre
      · apply List.Chain'.append hchain (List.chain'_singleton n)
        intro x hx y hy
        rw [hlast] at hx
        simp only [Option.mem_def, Option.some.injEq] at hx
        simp only [List.head?_cons, Option.mem_def, Option.some.injEq] at hy
        subst hx; subst hy
        exact ⟨sp, sn, hsp, hsn, rfl, hlt⟩

/-- On such a table `FillOutPathResult` returns once its fuel exceeds the number
of stored states that cost less than the state of the end node. -/
theorem ezPathSearch.FillOutPathResult_isSome {C : Type} [LinearOrder C]
    (Default : ezPathState C) (iStartNodeIndex : Int) (table : List (Int × ezPathState C))
    (h1 : ∃ st, ezHashTable.TryGetValue table iStartNodeIndex = some st ∧
      st.m_iReachedThroughNode = iStartNodeIndex)
    (h2 : ∀ (n : Int) (sn : ezPathState C), ezHashTable.TryGetValue table n = some sn →
      n ≠ iStartNodeIndex →
      ∃ sp, ezHashTable.TryGetValue table sn.m_iReachedThroughNode = some sp ∧
        sp.m_fCostToNode < sn.m_fCostToNode) :
    ∀ (fuel : Nat) (n : Int) (sn : ezPathState C) (acc : List Int),
      ezHashTable.TryGetValue table n = some sn →
      table.countP (fun e => decide (e.2.m_fCostToNode < sn.m_fCostToNode)) < fuel →
      (ezPathSearch.FillOutPathResult Default fuel table n acc).isSome = true := by
  intro fuel
  induction fuel with
  | zero => intro n sn acc _ h; omega
  | succ fuel ih =>
    intro n sn acc hsn hcount
    have hidx := ezHashTable.Index_of_some table n Default sn hsn
    unfold ezPathSearch.FillOutPathResult
    simp only [hidx]
    by_cases hself : n = sn.m_iReachedThroughNode
    · rw [if_pos hself]; rfl
    · rw [if_neg hself]
      have hne : n ≠ iStartNodeIndex := by
        intro e
        obtain ⟨st, hst, hr⟩ := h1
        rw [e, hst] at hsn
        cases hsn
        exact hself (e.trans hr.symm)
      obtain ⟨sp, hsp, hlt⟩ := h2 n sn hsn hne
      apply ih _ sp _ hsp
      have hmem := ezHashTable.mem_of_TryGetValue table _ sp hsp
      have hstrict := ezPathSearch.countP_lt_countP_of_mem
        (fun e : Int × ezPathState C => decide (e.2.m_fCostToNode < sp.m_fCostToNode))
        (fun e : Int × ezPathState C => decide (e.2.m_fCostToNode < sn.m_fCostToNode))
        table
        (fun x hx => by
          simp only [decide_eq_true_eq] at hx ⊢
          exact lt_trans hx hlt)
        (sn.m_iReachedThroughNode, sp) hmem
        (by simp only [decide_eq_true_eq]; exact hlt)
        (by simp only [decide_eq_false_iff_not]; exact lt_irrefl _)
      omega

/-! ### `FindPath` -/

/-- A search that returns `EZ_SUCCESS` from a state of a run hands back a path that
leads from the start node to the target node along the stored predecessors. -/
theorem ezPathSearch.searchLoop_success {C : Type} [LinearOrder C]
    (GenerateAdjacentStates : Int → ezPathState C → List (Int × ezPathState C))
    (Infinity : C) (Default : ezPathState C) (iStartNodeIndex : Int)
    (StartState : ezPathState C) (iTargetNodeIndex : Int) (fMaxPathCost : C)
    (out_Path : List Int) :
    ∀ (fuel : Nat) (self : ezPathSearch C) (expanding : Bool) (search : ezPathSearch C)
      (path : List Int),
      ezPathSearch.InRun Infinity Default iStartNodeIndex StartState expanding self →
      ezPathSearch.searchLoop GenerateAdjacentStates Infinity Default iTargetNodeIndex
          fMaxPathCost out_Path fuel self
        = FindPathOutcome.Returned ezResult.EZ_SUCCESS search path →
      path.head? = some iStartNodeIndex ∧ path.getLast? = some iTargetNodeIndex ∧
        List.Chain' (ezPathSearch.ReachedFrom search.m_PathStates) path ∧
        ezPathSearch.Invariant iStartNodeIndex StartState true search := by
  intro fuel
  induction fuel with
  | zero =>
    intro self expanding search path _ h
    unfold ezPathSearch.searchLoop at h
    split at h <;> cases h
  | succ fuel ih =>
    intro self expanding search path hrun h
    unfold ezPathSearch.searchLoop at h
    by_cases hq : self.m_StateQueue.isEmpty = true
    · rw [if_pos hq] at h; cases h
    · rw [if_neg hq] at h
      cases hb : ezPathSearch.FindBestNodeToExpand Infinity Default self with
      | error r => rw [hb] at h; cases h
      | ok res =>
        obtain ⟨s1, iBest, pBest⟩ := res
        rw [hb] at h
        simp only at h
        have hrun2 := ezPathSearch.InRun.expand expanding self s1 iBest pBest hrun hb
        have hinv2 := ezPathSearch.Invariant_of_InRun Infinity Default iStartNodeIndex
          StartState true _ hrun2
        by_cases ht : iBest = iTargetNodeIndex
        · rw [if_pos ht] at h
          cases hf : ezPathSearch.FillOutPathResult Default s1.m_PathStates.length
              s1.m_PathStates iBest [] with
          | none => rw [hf] at h; cases h
          | some r =>
            obtain ⟨table, p⟩ := r
            rw [hf] at h
            simp only [FindPathOutcome.Returned.injEq, true_and] at h
            obtain ⟨hs, hp⟩ := h
            obtain ⟨_, hcs⟩ := hinv2.current_stored rfl
            obtain ⟨htab, pre, hpre, hhead, hlast, hchain⟩ :=
              ezPathSearch.FillOutPathResult_spec Default iStartNodeIndex s1.m_PathStates
                ⟨_, hinv2.start_stored, rfl⟩ hinv2.reached_lower _ iBest [] table p hcs hf
            simp only [List.append_nil] at hpre
            subst hpre; subst htab; subst hp; subst hs
            exact ⟨hhead, ht ▸ hlast, hchain, hinv2⟩
        · rw [if_neg ht] at h
          cases hc : (pBest.bind (ezHashTable.TryGetValue s1.m_PathStates)) with
          | none => rw [hc] at h; cases h
          | some cur =>
            rw [hc] at h
            simp only at h
            by_cases hmax : cur.m_fEstimatedCostToTarget ≥ fMaxPathCost
            · rw [if_pos hmax] at h; cases h
            · rw [if_neg hmax] at h
              cases ha : ezPathSearch.AddPathNodes
                  { s1 with m_iCurNodeIndex := iBest, m_pCurPathState := pBest }
                  (GenerateAdjacentStates iBest cur) with
              | error r => rw [ha] at h; cases h
              | ok s3 =>
                rw [ha] at h
                simp only at h
                exact ih s3 true search path
                  (ezPathSearch.InRun_AddPathNodes Infinity Default iStartNodeIndex StartState
                    _ _ s3 hrun2 ha) h

/-- C13: whenever `FindPath` returns `EZ_SUCCESS` (every `AddPathNode` call of the
state generator having passed its assertions), `out_Path` is a non-empty path whose
first element is `iStartNodeIndex` and whose last element is `iTargetNodeIndex`,
and for every two consecutive elements `a`, `b` of it the stored state of `b` has
`m_iReachedThroughNode == a`. -/
theorem C13_FindPath_success_path {C : Type} [LinearOrder C]
    (GenerateAdjacentStates : Int → ezPathState C → List (Int × ezPathState C))
    (Infinity : C) (Default : ezPathState C) (fuel : Nat) (self : ezPathSearch C)
    (iStartNodeIndex : Int) (StartState : ezPathState C) (iTargetNodeIndex : Int)
    (out_Path : List Int) (fMaxPathCost : C) (search : ezPathSearch C) (path : List Int)
    (h : ezPathSearch.FindPath GenerateAdjacentStates Infinity Default fuel self
        iStartNodeIndex StartState iTargetNodeIndex out_Path fMaxPathCost
      = FindPathOutcome.Returned ezResult.EZ_SUCCESS search path) :
    path ≠ [] ∧ path.head? = some iStartNodeIndex ∧
    path.getLast? = some iTargetNodeIndex ∧
    List.Chain'
      (fun a b => ∃ sb : ezPathState C,
        ezHashTable.TryGetValue search.m_PathStates b = some sb ∧
        sb.m_iReachedThroughNode = a) path := by
  obtain ⟨hhead, hlast, hchain, _⟩ :=
    ezPathSearch.searchLoop_success GenerateAdjacentStates Infinity Default iStartNodeIndex
      StartState iTargetNodeIndex fMaxPathCost out_Path fuel _ false search path
      (ezPathSearch.InRun.start self) h
  refine ⟨?_, hhead, hlast, ?_⟩
  · intro e
    rw [e] at hhead
    cases hhead
  · exact hchain.imp (fun a b ⟨_, sb, _, hb, hr, _⟩ => ⟨sb, hb, hr⟩)

/-- C13 at a concrete input: on the example graph the search from node 0 to node 2
returns `EZ_SUCCESS` with the path 0, 1, 2. -/
theorem C13_FindPath_success_path_witness :
    ezPathSearch.FindPath exampleGenerator exampleInfinity exampleDefaultState 10
        exampleSearch 0 ⟨0, 0, 0⟩ 2 [] exampleInfinity
      = FindPathOutcome.Returned ezResult.EZ_SUCCESS exampleFound [0, 1, 2] ∧
    ([0, 1, 2] : List Int).head? = some 0 ∧ ([0, 1, 2] : List Int).getLast? = some 2 :=
  ⟨rfl,
    (C13_FindPath_success_path exampleGenerator exampleInfinity exampleDefaultState 10
      exampleSearch 0 ⟨0, 0, 0⟩ 2 [] exampleInfinity exampleFound [0, 1, 2] (by rfl)).2.1,
    (C13_FindPath_success_path exampleGenerator exampleInfinity exampleDefaultState 10
      exampleSearch 0 ⟨0, 0, 0⟩ 2 [] exampleInfinity exampleFound [0, 1, 2] (by rfl)).2.2.1⟩

/-- C14 (the code at a failing input): on the example graph with
`fMaxPathCost = 5`, the search from node 0 to node 1 returns `EZ_SUCCESS` although
the state under which the target was reached has `m_fEstimatedCostToTarget = 10`
and cost 10, not below `fMaxPathCost`. -/
theorem C14_FindPath_success_beyond_max_cost :
    ezPathSearch.FindPath exampleGenerator exampleInfinity exampleDefaultState 10
        exampleSearch 0 ⟨0, 0, 0⟩ 1 [] 5
      = FindPathOutcome.Returned ezResult.EZ_SUCCESS
          ⟨[(0, ⟨0, 0, 0⟩), (1, ⟨0, 10, 10⟩)], [], 1, some 1⟩ [0, 1] ∧
    ezHashTable.TryGetValue
        ([(0, ⟨0, 0, 0⟩), (1, ⟨0, 10, 10⟩)] : List (Int × ezPathState Nat)) 1
      = some ⟨0, 10, 10⟩ ∧
    ¬ (10 : Nat) < 5 :=
  ⟨rfl, rfl, by decide⟩

/-- The example state `exampleExpanded` is a state of the example run: the start,
one `FindBestNodeToExpand`, one `AddPathNode`. -/
theorem exampleExpanded_InRun :
    ezPathSearch.InRun exampleInfinity exampleDefaultState 0 ⟨0, 0, 0⟩ true exampleExpanded :=
  ezPathSearch.InRun.add
    { (exampleSearch.startSearch 0 ⟨0, 0, 0⟩) with
      m_StateQueue := [], m_iCurNodeIndex := 0, m_pCurPathState := some 0 }
    exampleExpanded 1 ⟨0, 10, 10⟩
    (ezPathSearch.InRun.expand false (exampleSearch.startSearch 0 ⟨0, 0, 0⟩)
      { (exampleSearch.startSearch 0 ⟨0, 0, 0⟩) with m_StateQueue := [] } 0 (some 0)
      (ezPathSearch.InRun.start exampleSearch) (by rfl))
    (by rfl)

/-- C19: costs grow from one node to the next along every recorded path. At every
point of a `FindPath` run (each `AddPathNode` call having passed its assertions)
the start node holds the start state referencing itself, never overwritten, and
every other stored state costs strictly more than the stored state of the node
named by its `m_iReachedThroughNode`. Hence from any stored node
`FillOutPathResult` returns, with as many rounds as there are stored states, a
path without repetition that begins at the start node, ends at that node and
follows the stored predecessors. -/
theorem C19_costs_grow_along_recorded_paths {C : Type} [LinearOrder C] (Infinity : C)
    (Default : ezPathState C) (iStartNodeIndex : Int) (StartState : ezPathState C)
    (expanding : Bool) (self : ezPathSearch C)
    (hrun : ezPathSearch.InRun Infinity Default iStartNodeIndex StartState expanding self) :
    ezHashTable.TryGetValue self.m_PathStates iStartNodeIndex
      = some { StartState with m_iReachedThroughNode := iStartNodeIndex } ∧
    (∀ (n : Int) (sn : ezPathState C),
      ezHashTable.TryGetValue self.m_PathStates n = some sn → n ≠ iStartNodeIndex →
      ∃ sp : ezPathState C,
        ezHashTable.TryGetValue self.m_PathStates sn.m_iReachedThroughNode = some sp ∧
        sp.m_fCostToNode < sn.m_fCostToNode) ∧
    (∀ (n : Int) (sn : ezPathState C),
      ezHashTable.TryGetValue self.m_PathStates n = some sn →
      ∃ path : List Int,
        ezPathSearch.FillOutPathResult Default self.m_PathStates.length self.m_PathStates n []
          = some (self.m_PathStates, path) ∧
        path.head? = some iStartNodeIndex ∧ path.getLast? = some n ∧
        List.Chain' (ezPathSearch.ReachedFrom self.m_PathStates) path ∧ path.Nodup) := by
  have hinv := ezPathSearch.Invariant_of_InRun Infinity Default iStartNodeIndex StartState
    expanding self hrun
  refine ⟨hinv.start_stored, hinv.reached_lower, ?_⟩
  intro n sn hsn
  have h1 : ∃ st, ezHashTable.TryGetValue self.m_PathStates iStartNodeIndex = some st ∧
      st.m_iReachedThroughNode = iStartNodeIndex := ⟨_, hinv.start_stored, rfl⟩
  have hfuel : self.m_PathStates.countP
      (fun e => decide (e.2.m_fCostToNode < sn.m_fCostToNode)) < self.m_PathStates.length := by
    have hlt := ezPathSearch.countP_lt_countP_of_mem
      (fun e : Int × ezPathState C => decide (e.2.m_fCostToNode < sn.m_fCostToNode))
      (fun _ => true) self.m_PathStates (fun _ _ => rfl) (n, sn)
      (ezHashTable.mem_of_TryGetValue _ _ _ hsn) rfl
      (by simp only [decide_eq_false_iff_not]; exact lt_irrefl _)
    have hlen : self.m_PathStates.countP (fun _ => true) = self.m_PathStates.length := by
      simp
    omega
  have hsome := ezPathSearch.FillOutPathResult_isSome Default iStartNodeIndex
    self.m_PathStates h1 hinv.reached_lower self.m_PathStates.length n sn [] hsn hfuel
  cases hf : ezPathSearch.FillOutPathResult Default self.m_PathStates.length
      self.m_PathStates n [] with
  | none => rw [hf] at hsome; cases hsome
  | some r =>
    obtain ⟨table, path⟩ := r
    obtain ⟨htab, pre, hpre, hhead, hlast, hchain⟩ :=
      ezPathSearch.FillOutPathResult_spec Default iStartNodeIndex self.m_PathStates h1
        hinv.reached_lower _ n [] table path ⟨sn, hsn⟩ hf
    simp only [List.append_nil] at hpre
    subst hpre; subst htab
    refine ⟨path, rfl, hhead, hlast, hchain, ?_⟩
    have hcost : List.Chain'
        (fun a b : Int => ∃ sa sb : ezPathState C,
          ezHashTable.TryGetValue self.m_PathStates a = some sa ∧
          ezHashTable.TryGetValue self.m_PathStates b = some sb ∧
          sa.m_fCostToNode < sb.m_fCostToNode) path :=
      hchain.imp (fun a b ⟨sa, sb, ha, hb, _, hlt⟩ => ⟨sa, sb, ha, hb, hlt⟩)
    haveI : IsTrans Int
        (fun a b : Int => ∃ sa sb : ezPathState C,
          ezHashTable.TryGetValue self.m_PathStates a = some sa ∧
          ezHashTable.TryGetValue self.m_PathStates b = some sb ∧
          sa.m_fCostToNode < sb.m_fCostToNode) :=
      ⟨fun a b c ⟨sa, sb, ha, hb, h12⟩ ⟨sb2, sc, hb2, hc, h23⟩ => by
        rw [hb] at hb2
        cases hb2
        exact ⟨sa, sc, ha, hc, lt_trans h12 h23⟩⟩
    have hpair := List.chain'_iff_pairwise.mp hcost
    exact hpair.imp (fun ⟨sa, sb, ha, hb, hlt⟩ e => by
      subst e
      rw [ha] at hb
      cases hb
      exact lt_irrefl _ hlt)

/-- C19 at a concrete input: after the example search has stored node 0, expanded
it and stored node 1, the path filled out from node 1 begins at node 0. -/
theorem C19_costs_grow_along_recorded_paths_witness :
    ezPathSearch.InRun exampleInfinity exampleDefaultState 0 ⟨0, 0, 0⟩ true exampleExpanded ∧
    ezHashTable.TryGetValue exampleExpanded.m_PathStates 0 = some ⟨0, 0, 0⟩ ∧
    ∃ path : List Int,
      ezPathSearch.FillOutPathResult exampleDefaultState exampleExpanded.m_PathStates.length
          exampleExpanded.m_PathStates 1 []
        = some (exampleExpanded.m_PathStates, path) ∧
      path.head? = some 0 :=
  ⟨exampleExpanded_InRun,
    (C19_costs_grow_along_recorded_paths exampleInfinity exampleDefaultState 0 ⟨0, 0, 0⟩ true
      exampleExpanded exampleExpanded_InRun).1,
    ((C19_costs_grow_along_recorded_paths exampleInfinity exampleDefaultState 0 ⟨0, 0, 0⟩ true
      exampleExpanded exampleExpanded_InRun).2.2 1 ⟨0, 10, 10⟩ (by rfl)).imp
      (fun _ h => ⟨h.1, h.2.1⟩)⟩

/-- C18 at concrete inputs, with node 4 being expanded at cost 0: a new state of
cost 5 for node 12, not stored before, is inserted and node 12 is queued once; a
new state of cost 5 for node 7, stored at cost 10, replaces the stored state and
leaves the queue as it is; a new state of cost 15 for node 7 changes nothing. -/
theorem C18_AddPathNode_keeps_cheaper_state_witness :
    exampleQueued.AddPathNode 12 ⟨0, 5, 40⟩
      = Except.ok ⟨[(4, ⟨4, 0, 30⟩), (7, ⟨4, 10, 10⟩), (9, ⟨4, 10, 10⟩), (12, ⟨4, 5, 40⟩)],
          [4, 7, 9, 12], 4, some 4⟩ ∧
    exampleQueued.AddPathNode 7 ⟨0, 5, 40⟩
      = Except.ok ⟨[(4, ⟨4, 0, 30⟩), (7, ⟨4, 5, 40⟩), (9, ⟨4, 10, 10⟩)], [4, 7, 9], 4, some 4⟩ ∧
    exampleQueued.AddPathNode 7 ⟨0, 15, 40⟩ = Except.ok exampleQueued ∧
    (∃ next : ezPathSearch Nat,
      exampleQueued.AddPathNode 12 ⟨0, 5, 40⟩ = Except.ok next ∧
      ezHashTable.TryGetValue next.m_PathStates 12 = some ⟨4, 5, 40⟩ ∧
      next.m_StateQueue = exampleQueued.m_StateQueue ++ [12]) ∧
    (∃ next : ezPathSearch Nat,
      exampleQueued.AddPathNode 7 ⟨0, 5, 40⟩ = Except.ok next ∧
      ezHashTable.TryGetValue next.m_PathStates 7 = some ⟨4, 5, 40⟩ ∧
      next.m_StateQueue = exampleQueued.m_StateQueue) :=
  ⟨rfl, rfl, rfl,
    (C18_AddPathNode_keeps_cheaper_state exampleQueued 12 ⟨0, 5, 40⟩ ⟨4, 0, 30⟩ (by rfl)
      (by decide) (by decide) (by decide)).imp
      (fun _ h => ⟨h.1, (h.2.2.2.1 (by rfl)).1, (h.2.2.2.1 (by rfl)).2.2⟩),
    (C18_AddPathNode_keeps_cheaper_state exampleQueued 7 ⟨0, 5, 40⟩ ⟨4, 0, 30⟩ (by rfl)
      (by decide) (by decide) (by decide)).imp
      (fun _ h => ⟨h.1, (h.2.2.1 ⟨4, 10, 10⟩ (by rfl) (by decide)).1,
        (h.2.2.1 ⟨4, 10, 10⟩ (by rfl) (by decide)).2.2⟩)⟩
/-- C20 at concrete inputs: a version 2 stream sets the texture only and leaves the
axis value on the stream, a version 1 stream changes nothing, and a version 4
stream fails the assertion. -/
theorem C20_Load_gated_by_version_witness :
    exampleFactory.Load exampleReader [2, 7, 5]
      = LoadOutcome.Loaded ⟨"Textures/Wood.tex", 1⟩ [5] ∧
    exampleFactory.Load exampleReader [1, 7, 5] = LoadOutcome.Loaded exampleFactory [7, 5] ∧
    exampleFactory.Load exampleReader [4, 7, 5] = LoadOutcome.InvalidVersion 4 :=
  ⟨(C20_Load_gated_by_version exampleReader exampleFactory [2, 7, 5]).2.2.1 rfl,
    (C20_Load_gated_by_version exampleReader exampleFactory [1, 7, 5]).2.1 (by decide),
    (C20_Load_gated_by_version exampleReader exampleFactory [4, 7, 5]).2.2.2.2 (by decide)⟩

/-! ### The crash handler -/

/-- C21: `HandleCrash` writes the dump from the crashed process only when the
external tool cannot be launched: `WriteOwnProcessMiniDump` is called (once, with
the pointer given) iff the dump file path is non-empty and `LaunchMiniDumpTool`
failed; with a non-empty path `LaunchMiniDumpTool` is called once, with that path;
when the path is empty neither `LaunchMiniDumpTool` nor `WriteOwnProcessMiniDump`
is called; and `PrintStackTrace` is called exactly once in every case. -/
theorem C21_HandleCrash_falls_back_when_launch_fails (LaunchMiniDumpTool : String → ezResult)
    (self : ezCrashHandler_WriteMiniDump) (pOsSpecificData : Nat) :
    (CrashCall.WriteOwnProcessMiniDump pOsSpecificData
        ∈ self.HandleCrash LaunchMiniDumpTool pOsSpecificData ↔
      (self.m_sDumpFilePath ≠ "" ∧
        (LaunchMiniDumpTool self.m_sDumpFilePath).Failed = true)) ∧
    ((self.HandleCrash LaunchMiniDumpTool pOsSpecificData).countP
        CrashCall.isWriteOwnProcessMiniDump =
      if self.m_sDumpFilePath ≠ "" ∧ (LaunchMiniDumpTool self.m_sDumpFilePath).Failed = true
      then 1 else 0) ∧
    (self.m_sDumpFilePath ≠ "" →
      (self.HandleCrash LaunchMiniDumpTool pOsSpecificData).countP
          CrashCall.isLaunchMiniDumpTool = 1 ∧
        CrashCall.LaunchMiniDumpTool self.m_sDumpFilePath
          ∈ self.HandleCrash LaunchMiniDumpTool pOsSpecificData) ∧
    (self.m_sDumpFilePath = "" →
      (self.HandleCrash LaunchMiniDumpTool pOsSpecificData).countP
          CrashCall.isLaunchMiniDumpTool = 0 ∧
        (self.HandleCrash LaunchMiniDumpTool pOsSpecificData).countP
          CrashCall.isWriteOwnProcessMiniDump = 0) ∧
    ((self.HandleCrash LaunchMiniDumpTool pOsSpecificData).countP
        CrashCall.isPrintStackTrace = 1 ∧
      CrashCall.PrintStackTrace pOsSpecificData
        ∈ self.HandleCrash LaunchMiniDumpTool pOsSpecificData) := by
  unfold ezCrashHandler_WriteMiniDump.HandleCrash
  by_cases hp : self.m_sDumpFilePath = ""
  · simp [hp, CrashCall.isWriteOwnProcessMiniDump, CrashCall.isLaunchMiniDumpTool,
      CrashCall.isPrintStackTrace]
  · by_cases hf : (LaunchMiniDumpTool self.m_sDumpFilePath).Failed = true
    · simp [hp, hf, CrashCall.isWriteOwnProcessMiniDump, CrashCall.isLaunchMiniDumpTool,
        CrashCall.isPrintStackTrace]
    · simp [hp, hf, CrashCall.isWriteOwnProcessMiniDump, CrashCall.isLaunchMiniDumpTool,
        CrashCall.isPrintStackTrace]

/-- C21 at concrete inputs: with the path `crash.dmp` and a tool that cannot be
launched the dump is written from the crashed process; with a tool that is
launched, or with an empty path, it is not. -/
theorem C21_HandleCrash_falls_back_when_launch_fails_witness :
    (⟨"crash.dmp"⟩ : ezCrashHandler_WriteMiniDump).HandleCrash exampleLaunchFails 64
      = [CrashCall.LaunchMiniDumpTool "crash.dmp", CrashCall.LogErrorCouldNotLaunch,
          CrashCall.WriteOwnProcessMiniDump 64, CrashCall.PrintStackTrace 64,
          CrashCall.LogErrorApplicationCrashed "crash.dmp"] ∧
    CrashCall.WriteOwnProcessMiniDump 64
      ∈ (⟨"crash.dmp"⟩ : ezCrashHandler_WriteMiniDump).HandleCrash exampleLaunchFails 64 ∧
    ((⟨"crash.dmp"⟩ : ezCrashHandler_WriteMiniDump).HandleCrash exampleLaunchSucceeds 64).countP
      CrashCall.isWriteOwnProcessMiniDump = 0 ∧
    ((⟨""⟩ : ezCrashHandler_WriteMiniDump).HandleCrash exampleLaunchFails 64).countP
      CrashCall.isLaunchMiniDumpTool = 0 :=
  ⟨by decide,
    (C21_HandleCrash_falls_back_when_launch_fails exampleLaunchFails ⟨"crash.dmp"⟩ 64).1.mpr
      ⟨by decide, by decide⟩,
    (C21_HandleCrash_falls_back_when_launch_fails exampleLaunchSucceeds ⟨"crash.dmp"⟩ 64).2.1,
    ((C21_HandleCrash_falls_back_when_launch_fails exampleLaunchFails ⟨""⟩ 64).2.2.2.1 rfl).1⟩
